import Mathlib

/-!
Verification of the `tree` package (directory-tree rendering):
a shallow embedding of `node.go` (traversal `Visit`, sort selection,
rendering `print`, `formatBytes`) and of the color classifier
(`ANSIColor`), together with theorems settling the frozen claims.

Modelling conventions:
* Go `error` values are represented by their message `String`.
* `os.FileInfo` is the record `FileInfo`; `Sys()` is modelled as
  `Option StatT`, where `none` models any dynamic value that is not a
  `*syscall.Stat_t` (for example `nil`), so the unchecked type assertion
  `node.Sys().(*syscall.Stat_t)` panics exactly when the field is `none`.
* External primitives consumed by the code (`Fs.Stat`, `Fs.ReadDir`,
  `filepath.Abs/Clean/Join/EvalSymlinks`, `os.Readlink`,
  `user.LookupId`, `time.Format`, `regexp.Compile`) are fields of an
  environment record `Env`; every theorem quantifies over it unless it
  instantiates a concrete scenario.
* The shared mutable visited-path map `vpaths` is threaded explicitly
  as a `List String` (insertion = cons, lookup = membership).
* Machine integers (`int`, `int64`, `uint32`) are modelled as `Int`;
  none of the verified paths can overflow 64 bits.
* Recursive calls whose termination depends on the external file system
  (`Visit`, `print`) take an explicit fuel argument; `none` / fuel-out
  results model non-termination and never occur in the theorems below.
-/

namespace GoTree

/-- Where a write lands: the process standard output (`fmt.Printf`)
or the writer configured in `Options.OutFile` (`fmt.Fprintf`). -/
inductive Dest where
  | stdout
  | outFile
deriving DecidableEq, Repr

/-- One write performed by the renderer: destination and written text. -/
abbrev Write := Dest × String

/-- The fields of `*syscall.Stat_t` the program reads.  `Ctim` is the
metadata-change timestamp used by the (spec-modelled) change-time sort. -/
structure StatT where
  Ino : Int
  Dev : Int
  Uid : Int
  Gid : Int
  Ctim : Int
deriving DecidableEq, Repr

/-- The `os.FileMode` bits the program tests, plus the rendering of
`Mode().String()` (computed by the Go standard library, carried as data). -/
structure FMode where
  symlink : Bool
  socket : Bool
  namedPipe : Bool
  device : Bool
  charDevice : Bool
  str : String
deriving DecidableEq, Repr

/-- `os.FileInfo` as consumed by the program. -/
structure FileInfo where
  Name : String
  Size : Int
  IsDir : Bool
  Mode : FMode
  ModTime : Int
  Sys : Option StatT
deriving DecidableEq, Repr

instance : Inhabited FMode := ⟨⟨false, false, false, false, false, ""⟩⟩

instance : Inhabited FileInfo := ⟨⟨"", 0, false, default, 0, none⟩⟩

/-- `Node` from `node.go`: embedded `os.FileInfo` (`none` until `Visit`
stats the path, mirroring the nil interface), the path, the depth, the
recorded error and the ordered children.  The shared `vpaths` map is
threaded separately (see module comment). -/
inductive Node where
  | mk : Option FileInfo → String → Int → Option String → List Node → Node

@[simp] def Node.info : Node → Option FileInfo
  | .mk i _ _ _ _ => i

@[simp] def Node.path : Node → String
  | .mk _ p _ _ _ => p

@[simp] def Node.depth : Node → Int
  | .mk _ _ d _ _ => d

@[simp] def Node.err : Node → Option String
  | .mk _ _ _ e _ => e

@[simp] def Node.nodes : Node → List Node
  | .mk _ _ _ _ ns => ns

/-- The embedded `os.FileInfo` method receiver, defaulted when unset;
the Go program only calls these methods on nodes whose `FileInfo` has
been set (calling them on the nil interface would panic). -/
def Node.fi (n : Node) : FileInfo := n.info.getD default

def Node.IsDir (n : Node) : Bool := n.fi.IsDir

def Node.Size (n : Node) : Int := n.fi.Size

def Node.Name (n : Node) : String := n.fi.Name

def Node.Mode (n : Node) : FMode := n.fi.Mode

instance : Inhabited Node := ⟨.mk none "" 0 none []⟩

@[simp] def Node.setInfo : Node → FileInfo → Node
  | .mk _ p d e ns, f => .mk (some f) p d e ns

@[simp] def Node.setErr : Node → String → Node
  | .mk i p d _ ns, e => .mk i p d (some e) ns

@[simp] def Node.setNodes : Node → List Node → Node
  | .mk i p d e _, ns => .mk i p d e ns

/-- `Options` from `node.go` (the flag fields; the `Fs` and `OutFile`
fields are modelled by `Env` and by the `Dest` tag on writes). -/
structure Options where
  All : Bool
  DirsOnly : Bool
  FullPath : Bool
  IgnoreCase : Bool
  FollowLink : Bool
  DeepLevel : Int
  Pattern : String
  IPattern : String
  ByteSize : Bool
  UnitSize : Bool
  FileMode : Bool
  ShowUid : Bool
  ShowGid : Bool
  LastMod : Bool
  Quotes : Bool
  Inodes : Bool
  Device : Bool
  NoSort : Bool
  VerSort : Bool
  ModSort : Bool
  DirSort : Bool
  NameSort : Bool
  SizeSort : Bool
  CTimeSort : Bool
  ReverSort : Bool
  NoIndent : Bool
  Colorize : Bool

/-- All flags off / zero: the zero value of `Options`. -/
def Options.zero : Options :=
  ⟨false, false, false, false, false, 0, "", "", false, false, false, false,
   false, false, false, false, false, false, false, false, false, false,
   false, false, false, false, false⟩

/-- The external world consumed by the program: the `Fs` interface plus
the standard-library primitives called directly.  A `compileRegex`
result of `none` models `regexp.Compile` returning an error; `some m`
models a compiled pattern whose `MatchString` is `m`. -/
structure Env where
  stat : String → Except String FileInfo
  readDir : String → Except String (List String)
  abs : String → Except String String
  clean : String → String
  joinPath : String → String → String
  readlink : String → Except String String
  evalSymlinks : String → Except String String
  lookupId : String → Option String
  formatTime : Int → String
  compileRegex : String → Option (String → Bool)

/-- Abnormal outcomes of the fuelled renderer: fuel exhaustion (models
non-termination) and the two run-time panics the code can raise. -/
inductive Stop where
  | fuelOut
  | panicNilInfo
  | panicSysAssert
deriving DecidableEq, Repr

/-! ## Byte-size formatter (`formatBytes`, node.go lines 336-359)

The Go code converts to `float64` and divides by powers of 1024; for
`i < 2^53` the conversion and the divisions are exact (powers of two
only change the exponent), so the value formatted is exactly the
rational `i / 1024^k`, which we compute with integer arithmetic.
`fmt` renders `%.1f`/`%.0f` by correct rounding with ties to even
(strconv's `roundShortest`/fixed rounding), modelled by
`roundHalfEven`. -/

/-- Round `num / den` (with `den > 0`) to the nearest integer, ties to
even, as Go's `fmt` fixed-precision formatting does. -/
def roundHalfEven (num den : Int) : Int :=
  let q := num / den
  let r := num % den
  if 2 * r < den then q
  else if den < 2 * r then q + 1
  else if q % 2 = 0 then q else q + 1

/-- `fmt.Sprintf("%.0f", n)` for the exact value `num/den`. -/
def fmtF0 (num den : Int) : String := toString (roundHalfEven num den)

/-- `fmt.Sprintf("%.01f", n)` for the exact value `num/den`: one
decimal digit. -/
def fmtF1 (num den : Int) : String :=
  let t := roundHalfEven (10 * num) den
  toString (t / 10) ++ "." ++ toString (t % 10)

/-- One scaled branch of `formatBytes`: the `n >= 10` test on the float
`i/d` is `10*d <= i` exactly. -/
def fmtScaled (i d : Int) (suffix : String) : String :=
  if 10 * d ≤ i then fmtF0 i d ++ suffix else fmtF1 i d ++ suffix

/-- `formatBytes` from node.go: strict thresholds at 1 GiB / 1 MiB /
1 KiB, one decimal place unless the scaled value is at least 10, raw
integer below the 1 KiB threshold.  (The final `strings.Trim(result, " ")`
is a no-op: no branch emits spaces.) -/
def formatBytes (i : Int) : String :=
  if 1024 * 1024 * 1024 < i then fmtScaled i (1024 * 1024 * 1024) "G"
  else if 1024 * 1024 < i then fmtScaled i (1024 * 1024) "M"
  else if 1024 < i then fmtScaled i 1024 "K"
  else toString i

/-! ## String helpers for the renderer -/

/-- Left-pad with spaces to width `w`, as `fmt.Sprintf("%<w>d"/"%<w>s")`. -/
def padl (w : Nat) (s : String) : String :=
  if s.length < w then String.mk (List.replicate (w - s.length) ' ') ++ s else s

/-- Right-pad with spaces to width `w`, as `fmt.Sprintf("%-<w>s")`. -/
def padr (w : Nat) (s : String) : String :=
  if s.length < w then s ++ String.mk (List.replicate (w - s.length) ' ') else s

/-- `strings.Join(props, " ")`. -/
def joinSp (l : List String) : String := String.intercalate " " l

/-- Whether `sep` is a leading segment of `l`. -/
def leadsWith : List Char → List Char → Bool
  | [], _ => true
  | _ :: _, [] => false
  | a :: as, b :: bs => a = b && leadsWith as bs

/-- Find the first occurrence of `sep`: the characters before it and
the characters after it, or `none` when it does not occur. -/
def findSep (sep : List Char) : List Char → Option (List Char × List Char)
  | [] => none
  | c :: rest =>
    if leadsWith sep (c :: rest) then some ([], List.drop sep.length (c :: rest))
    else
      match findSep sep rest with
      | some (pre, post) => some (c :: pre, post)
      | none => none

/-- Split on every non-overlapping occurrence of `sep`; the fuel bounds
the number of occurrences and `length + 1` always suffices for a
non-empty separator. -/
def splitList (sep : List Char) : Nat → List Char → List (List Char)
  | 0, l => [l]
  | Nat.succ fuel, l =>
    match findSep sep l with
    | none => [l]
    | some (pre, post) => pre :: splitList sep fuel post

/-- `strings.Split(s, sep)` for a non-empty separator. -/
def splitGo (s sep : String) : List String :=
  (splitList sep.data (s.data.length + 1) s.data).map String.mk

/-- The short error text of `print` (node.go lines 198-201):
`strings.Split(err, ": ")` and, when it yields more than one segment,
the segment at index 1 (the second segment), otherwise the whole text. -/
def shortErr (e : String) : String :=
  match splitGo e ": " with
  | _ :: second :: _ => second
  | _ => e

/-! ## Color classifier (`ANSIColor`, color source file lines 10-72) -/

def Escape : String := "\x1b"

def ResetC : Int := 0
def Bold : Int := 1
def Black : Int := 30
def Red : Int := 31
def Green : Int := 32
def Yellow : Int := 33
def Blue : Int := 34
def Magenta : Int := 35
def Cyan : Int := 36
def White : Int := 37

/-- `strings.ToLower` restricted to the ASCII range, which covers every
extension literal the classifier compares against. -/
def toLowerGo (s : String) : String := String.mk (s.data.map Char.toLower)

/-- Scan the reversed character list for the extension start. -/
def extFromRev (acc : List Char) : List Char → String
  | [] => ""
  | c :: rest =>
    if c = '/' then ""
    else if c = '.' then String.mk ('.' :: acc)
    else extFromRev (c :: acc) rest

/-- `filepath.Ext`: the suffix of the final path element beginning at
its last dot, empty when there is none. -/
def goExt (p : String) : String := extFromRev [] p.data.reverse

def execExts : List String := [".bat", ".btm", ".cmd", ".com", ".dll", ".exe"]

def archiveExts : List String :=
  [".arj", ".bz2", ".deb", ".gz", ".lzh", ".rpm", ".tar", ".taz", ".tb2",
   ".tbz2", ".tbz", ".tgz", ".tz", ".tz2", ".z", ".zip", ".zoo"]

def mediaExts : List String :=
  [".asf", ".avi", ".bmp", ".flac", ".gif", ".jpg", "jpeg", ".m2a", ".m2v",
   ".mov", ".mp3", ".mpeg", ".mpg", ".ogg", ".ppm", ".rm", ".tga", ".tif",
   ".wav", ".wmv", ".xbm", ".xpm"]

/-- The shared final wrapping: `Escape[Bold;<color>m <s> Escape[ResetC m`. -/
def wrapBold (c : Int) (s : String) : String :=
  Escape ++ "[" ++ toString Bold ++ ";" ++ toString c ++ "m" ++ s ++
    Escape ++ "[" ++ toString ResetC ++ "m"

/-- Immediate-return styling for a broken symbolic link. -/
def orphanStyle (s : String) : String :=
  Escape ++ "[40;" ++ toString Bold ++ ";" ++ toString Red ++ "m" ++ s ++
    Escape ++ "[" ++ toString ResetC ++ "m"

/-- Immediate-return styling for a socket. -/
def socketStyle (s : String) : String :=
  Escape ++ "[40;" ++ toString Bold ++ ";" ++ toString Magenta ++ "m" ++ s ++
    Escape ++ "[" ++ toString ResetC ++ "m"

/-- Immediate-return styling for a named pipe. -/
def fifoStyle (s : String) : String :=
  Escape ++ "[40;" ++ toString Yellow ++ "m" ++ s ++
    Escape ++ "[" ++ toString ResetC ++ "m"

/-- Immediate-return styling for block and character devices (the two
`Sprintf` calls in the source produce the same string). -/
def devStyle (s : String) : String :=
  Escape ++ "[40;" ++ toString Yellow ++ ";01m" ++ s ++
    Escape ++ "[" ++ toString ResetC ++ "m"

/-- The type-based tail of `ANSIColor` (the `default:` case after the
symlink test): socket, pipe, block device and character device return
immediately; everything else receives the common bold wrap with the
color selected so far. -/
def ansiAfterLink (m : FMode) (c : Int) (s : String) : String :=
  if m.socket then socketStyle s
  else if m.namedPipe then fifoStyle s
  else if m.device then devStyle s
  else if m.charDevice then devStyle s
  else wrapBold c s

/-- `ANSIColor`: extension lookup on the lower-cased `filepath.Ext` of
the node's name, then the type-based rules, then the common bold wrap. -/
def ansiColor (env : Env) (n : Node) (s : String) : String :=
  let ext := toLowerGo (goExt n.Name)
  if execExts.contains ext then wrapBold Green s
  else if archiveExts.contains ext then wrapBold Red s
  else if mediaExts.contains ext then wrapBold Magenta s
  else
    let c0 : Int := if n.IsDir then Blue else 0
    if n.Mode.symlink then
      match env.evalSymlinks n.path with
      | Except.error _ => orphanStyle s
      | Except.ok _ => ansiAfterLink n.Mode Cyan s
    else ansiAfterLink n.Mode c0 s

/-! ## Sort policies

`SortFunc`, `ByFunc` and the six comparators live in the repository's
sort source file, which is not under `src/`; the comparators are
modelled from the spec (section 4.2).  `sort.Sort` itself is a Go
standard-library routine whose contract is "a permutation of the input
ordered by `Less`" with stability unspecified; it is modelled by the
stable sort `List.insertionSort`, the stable refinement of that
contract. -/

/-- `SortFunc`: a comparator over two `os.FileInfo` values. -/
def SortFunc := FileInfo → FileInfo → Bool

/-- Modelled from the spec: the sort file's modification-time
comparator — ascending by last-modified timestamp. -/
def ModSortF : SortFunc := fun f1 f2 => decide (f1.ModTime < f2.ModTime)

/-- Modelled from the spec: the change-time comparator — ascending by
metadata-change timestamp, falling back to the modification time when
the platform stat record is unavailable. -/
def CTimeSortF : SortFunc := fun f1 f2 =>
  decide ((match f1.Sys with | some st => st.Ctim | none => f1.ModTime) <
          (match f2.Sys with | some st => st.Ctim | none => f2.ModTime))

/-- Modelled from the spec: directories sort before files. -/
def DirSortF : SortFunc := fun f1 f2 => f1.IsDir && !f2.IsDir

/-- Modelled from the spec: ascending by byte size. -/
def SizeSortF : SortFunc := fun f1 f2 => decide (f1.Size < f2.Size)

/-- Lexicographic order on character lists (Go compares strings
byte-wise, which for UTF-8 coincides with code-point order). -/
def strLtGo : List Char → List Char → Bool
  | [], [] => false
  | [], _ :: _ => true
  | _ :: _, [] => false
  | x :: xs, y :: ys => if x = y then strLtGo xs ys else decide (x < y)

/-- Modelled from the spec: lexicographic by entry name. -/
def NameSortF : SortFunc := fun f1 f2 => strLtGo f1.Name.data f2.Name.data

/-- Strip leading zeros of a digit run (keeping at least one digit). -/
def stripZeros (l : List Char) : List Char :=
  match l.dropWhile (· = '0') with
  | [] => ['0']
  | r => r

/-- Lexicographic comparison of two char lists of equal length. -/
def lexLess : List Char → List Char → Bool
  | [], _ => false
  | _ :: _, [] => false
  | a :: as, b :: bs =>
    if a = b then lexLess as bs else decide (a < b)

/-- Numeric comparison of two non-empty digit runs: compare the
zero-stripped lengths, then lexicographically. -/
def digitRunLess (a b : List Char) : Bool :=
  let a := stripZeros a
  let b := stripZeros b
  if a.length < b.length then true
  else if b.length < a.length then false
  else lexLess a b

/-- Modelled from the spec: numeric-aware name comparison
(`"file2"` before `"file10"`), lexicographic elsewhere.  The fuel is
bounded by the total length and `|as| + |bs| + 1` always suffices. -/
def verLess : Nat → List Char → List Char → Bool
  | 0, _, _ => false
  | Nat.succ fuel, as, bs =>
    match as, bs with
    | [], [] => false
    | [], _ :: _ => true
    | _ :: _, [] => false
    | a :: as', b :: bs' =>
      if a.isDigit && b.isDigit then
        let ra := (a :: as').takeWhile Char.isDigit
        let rb := (b :: bs').takeWhile Char.isDigit
        if digitRunLess ra rb then true
        else if digitRunLess rb ra then false
        else if (ra = rb : Bool) = false then lexLess ra rb
        else verLess fuel ((a :: as').dropWhile Char.isDigit)
               ((b :: bs').dropWhile Char.isDigit)
      else if a = b then verLess fuel as' bs'
      else decide (a < b)

/-- Modelled from the spec: the version comparator. -/
def VerSortF : SortFunc := fun f1 f2 =>
  verLess (f1.Name.length + f2.Name.length + 1) f1.Name.data f2.Name.data

/-- `ByFunc.Less`: a `SortFunc` applied to the two nodes' `FileInfo`. -/
def byFuncLess (fn : SortFunc) : Node → Node → Bool := fun a b => fn a.fi b.fi

/-- The documented contract of Go's `sort.Sort` (standard library,
external to the repository, modelled like the other external calls):
the result is a permutation of the input in which no later element is
`Less` than an earlier one.  Stability is NOT part of this contract —
`sort.Stable` is the separate stable variant and `Node.sort` calls
`sort.Sort` — so the sorting claim is settled against this relation. -/
def sortContract (less : Node → Node → Bool) (l l' : List Node) : Prop :=
  l'.Perm l ∧ l'.Pairwise (fun a b => less b a = false)

/-- `sort.Reverse` (Go standard library): the `Less` comparator with
its two arguments swapped. -/
def reverLess (less : Node → Node → Bool) : Node → Node → Bool :=
  fun a b => less b a

/-- Modelled from the spec: the claim's reading of the reverse flag, a
comparator whose RESULT is inverted pointwise; compared against
`reverLess`, which is what the code applies. -/
def specInvLess (less : Node → Node → Bool) : Node → Node → Bool :=
  fun a b => !(less a b)

/-- Executable refinement of the `sort.Sort` contract at the call sites
of `Node.sort`, used only to keep `visit` computable on concrete
inputs; `sort.Sort` itself promises no more than `sortContract`. -/
def goSortSort (less : Node → Node → Bool) (l : List Node) : List Node :=
  List.insertionSort (fun a b => less b a = false) l

/-- The comparator-selection switch of `Node.sort`
(node.go lines 154-168): fixed priority order. -/
def selectSortFunc (opts : Options) : Option SortFunc :=
  if opts.ModSort then some ModSortF
  else if opts.CTimeSort then some CTimeSortF
  else if opts.DirSort then some DirSortF
  else if opts.VerSort then some VerSortF
  else if opts.SizeSort then some SizeSortF
  else if opts.NameSort then some NameSortF
  else none

/-- `Node.sort` (node.go lines 153-176): sort by the selected
comparator, through `sort.Reverse` (argument swap) when `ReverSort`
is set; no selected comparator means no sorting. -/
def sortNodes (opts : Options) (ns : List Node) : List Node :=
  match selectSortFunc opts with
  | none => ns
  | some fn =>
    if opts.ReverSort then goSortSort (fun a b => byFuncLess fn b a) ns
    else goSortSort (byFuncLess fn) ns

/-- The sorting step of `Visit` (node.go lines 147-149):
`if !opts.NoSort { node.sort(opts) }`. -/
def applySort (opts : Options) (ns : List Node) : List Node :=
  if opts.NoSort then ns else sortNodes opts ns

/-- The sorting step of `Visit` at the `sort.Sort` contract level
(node.go lines 146-149 and 153-176): the set of child orders the
program may produce, with `sort.Reverse` as the argument swap
`reverLess`. -/
def applySortRel (opts : Options) (ns ns' : List Node) : Prop :=
  if opts.NoSort then ns' = ns
  else
    match selectSortFunc opts with
    | none => ns' = ns
    | some fn =>
      if opts.ReverSort then sortContract (reverLess (byFuncLess fn)) ns ns'
      else sortContract (byFuncLess fn) ns ns'

/-! ## Traversal engine (`Visit`, node.go lines 82-151) -/

/-- `strings.HasPrefix(name, ".")`. -/
def startsDot (s : String) : Bool :=
  match s.data with
  | c :: _ => decide (c = '.')
  | [] => false

/-- The `rePrefix` of the pattern filters: `"(?i)"` under `IgnoreCase`. -/
def icPre (opts : Options) : String := if opts.IgnoreCase then "(?i)" else ""

/-- The include-pattern test (node.go lines 129-134): an empty pattern
or a failed compilation keeps the name; otherwise keep exactly the
matching names. -/
def patternKeeps (env : Env) (opts : Options) (name : String) : Bool :=
  if opts.Pattern = "" then true
  else
    match env.compileRegex (icPre opts ++ opts.Pattern) with
    | none => true
    | some m => m name

/-- The exclude-pattern test (node.go lines 136-141): an empty pattern
or a failed compilation drops nothing; otherwise drop exactly the
matching names. -/
def ipatternDrops (env : Env) (opts : Options) (name : String) : Bool :=
  if opts.IPattern = "" then false
  else
    match env.compileRegex (icPre opts ++ opts.IPattern) with
    | none => false
    | some m => m name

/-- The content filter applied to a successfully statted non-directory
child (node.go lines 120-141). -/
def keepFile (env : Env) (opts : Options) (name : String) : Bool :=
  !opts.DirsOnly && patternKeeps env opts name && !ipatternDrops env opts name

/-- Whether a visited child is attached: the content filter applies
exactly to error-free non-directory children (node.go line 119). -/
def keepChild (env : Env) (opts : Options) (c : Node) (name : String) : Bool :=
  if c.err.isNone && !c.IsDir then keepFile env opts name else true

/-- The entry loop of `Visit` (node.go lines 108-145): hidden-name
skipping, recursive descent (through the supplied `visitChild`),
filtering, attachment and count accumulation, threading the shared
visited-path map. -/
def visitLoop (env : Env) (opts : Options)
    (visitChild : Node → List String → Option (Node × List String × Int × Int))
    (parentPath : String) (parentDepth : Int) :
    List String → List String → Option (List Node × List String × Int × Int)
  | [], vp => some ([], vp, 0, 0)
  | name :: rest, vp =>
    if !opts.All && startsDot name then
      visitLoop env opts visitChild parentPath parentDepth rest vp
    else
      match visitChild (Node.mk none (env.joinPath parentPath name)
          (parentDepth + 1) none []) vp with
      | none => none
      | some (c, vp1, d1, f1) =>
        match visitLoop env opts visitChild parentPath parentDepth rest vp1 with
        | none => none
        | some (chs, vp2, d2, f2) =>
          if keepChild env opts c name then some (c :: chs, vp2, d1 + d2, f1 + f2)
          else some (chs, vp2, d2, f2)

/-- Recording of the canonical absolute path in the visited-path map
(node.go lines 84-87): best-effort, skipped when `filepath.Abs` fails. -/
def vpAdd (env : Env) (p : String) (vp : List String) : List String :=
  match env.abs p with
  | Except.ok q => env.clean q :: vp
  | Except.error _ => vp

/-- `Visit` (node.go lines 82-151), with fuel bounding the recursion
depth: record the canonical absolute path, stat, handle non-directories
and the depth limit, list the directory, process the entries, sort. -/
def visit (env : Env) (opts : Options) :
    Nat → Node → List String → Option (Node × List String × Int × Int)
  | 0, _, _ => none
  | Nat.succ fuel, node, vp0 =>
    let vp := vpAdd env node.path vp0
    match env.stat node.path with
    | Except.error e => some (node.setErr e, vp, 0, 0)
    | Except.ok fi =>
      let node1 := node.setInfo fi
      if fi.IsDir = false then some (node1, vp, 0, 1)
      else if 0 < opts.DeepLevel ∧ opts.DeepLevel ≤ node1.depth then
        some (node1, vp, 1, 0)
      else
        match env.readDir node1.path with
        | Except.error e => some (node1.setErr e, vp, 0, 0)
        | Except.ok names =>
          match visitLoop env opts (visit env opts fuel) node1.path node1.depth
              names vp with
          | none => none
          | some (chs, vp2, d, f) =>
            some (node1.setNodes (applySort opts chs), vp2, d + 1, f)

/-! ## Render engine (`Print`/`print`, node.go lines 178-333) -/

mutual
/-- `dirRecursiveSize` (node.go lines 181-194). -/
def dirRecursiveSize : Node → Int
  | .mk _ _ _ _ ns => sizeNodes ns

/-- Sum of the loop body of `dirRecursiveSize` over a child list. -/
def sizeNodes : List Node → Int
  | [] => 0
  | n :: rest =>
    (if n.err.isSome then 0
     else if n.IsDir then dirRecursiveSize n else n.Size) + sizeNodes rest
end

/-- The property columns of a non-directory node
(node.go lines 206-248), in source order. -/
def propsFile (env : Env) (opts : Options) (fi : FileInfo) (st : StatT) :
    List String :=
  (if opts.Inodes then [toString st.Ino] else []) ++
  (if opts.Device then [padl 3 (toString st.Dev)] else []) ++
  (if opts.FileMode then [fi.Mode.str] else []) ++
  (if opts.ShowUid then
    [padr 8 ((env.lookupId (toString st.Uid)).getD (toString st.Uid))] else []) ++
  (if opts.ShowGid then [padr 4 (toString st.Gid)] else []) ++
  (if opts.ByteSize || opts.UnitSize then
    [if opts.UnitSize then padl 4 (formatBytes fi.Size)
     else padl 11 (toString fi.Size)] else []) ++
  (if opts.LastMod then [env.formatTime fi.ModTime] else [])

/-- The property columns of a directory node (node.go lines 254-265):
only the recursive size. -/
def propsDir (opts : Options) (n : Node) : List String :=
  if opts.ByteSize || opts.UnitSize then
    [if opts.UnitSize then padl 4 (formatBytes (dirRecursiveSize n))
     else padl 11 (toString (dirRecursiveSize n))]
  else []

/-- The bracketed property write, emitted only when some column is
enabled (node.go lines 250-252 and 267-269). -/
def propsWrites (ps : List String) : List Write :=
  if ps.isEmpty then [] else [(Dest.outFile, "[" ++ joinSp ps ++ "]  ")]

/-- The immediate link text (node.go lines 288-291): `os.Readlink`,
falling back to the node's own path. -/
def vtarget0 (env : Env) (node : Node) : String :=
  match env.readlink node.path with
  | Except.ok t => t
  | Except.error _ => node.path

/-- The canonical target (node.go lines 292-295):
`filepath.EvalSymlinks`, falling back to the immediate link text. -/
def targetPath (env : Env) (node : Node) : String :=
  match env.evalSymlinks node.path with
  | Except.ok p => p
  | Except.error _ => vtarget0 env node

/-- The target's metadata (node.go line 296): `Fs.Stat` of the
canonical target, `none` on error (the nil `FileInfo`). -/
def targetInfo (env : Env) (node : Node) : Option FileInfo :=
  match env.stat (targetPath env node) with
  | Except.ok f => some f
  | Except.error _ => none

/-- The target display text (node.go lines 297-299): colorized with the
TARGET's attributes when colorization is on and the target was
statted. -/
def vtargetDisp (env : Env) (opts : Options) (node : Node) : String :=
  if opts.Colorize ∧ (targetInfo env node).isSome then
    ansiColor env (Node.mk (targetInfo env node) (vtarget0 env node) 0 none [])
      (vtarget0 env node)
  else vtarget0 env node

/-- The symlink annotation and follow step (node.go lines 287-315):
resolve the link text and the canonical target, append
`" -> <target>"`, and under `FollowLink` either adopt the children of a
fresh traversal of an unvisited directory target or append the
`" [recursive, not followed]"` suffix.  Returns the final name, the
children to render and the threaded visited-path map. -/
def symlinkStep (env : Env) (opts : Options)
    (visitF : Node → List String → Option (Node × List String × Int × Int))
    (node : Node) (fi : FileInfo) (name2 : String) (vp : List String) :
    Except Stop (String × List Node × List String) :=
  if fi.Mode.symlink then
    let nm := name2 ++ " -> " ++ vtargetDisp env opts node
    if opts.FollowLink then
      match env.abs (targetPath env node), targetInfo env node with
      | Except.ok p, some f =>
        if f.IsDir then
          if env.clean p ∈ vp then
            Except.ok (nm ++ " [recursive, not followed]", node.nodes, vp)
          else
            match visitF (Node.mk (some f) (targetPath env node) 0 none []) vp with
            | none => Except.error Stop.fuelOut
            | some (inf, vp2, _, _) => Except.ok (nm, inf.nodes, vp2)
        else Except.ok (nm, node.nodes, vp)
      | _, _ => Except.ok (nm, node.nodes, vp)
    else Except.ok (nm, node.nodes, vp)
  else Except.ok (name2, node.nodes, vp)

/-- The display name of a node (node.go lines 271-285): the full path
at the root or under `FullPath`, the base name otherwise, quoted under
`Quotes`, colorized under `Colorize` (quotes inside the colored span). -/
def displayName (env : Env) (opts : Options) (node : Node) (fi : FileInfo) :
    String :=
  let name0 := if node.depth = 0 ∨ opts.FullPath then node.path else fi.Name
  let name1 := if opts.Quotes then "\"" ++ name0 ++ "\"" else name0
  if opts.Colorize then ansiColor env node name1 else name1

/-- The child loop of `print` (node.go lines 319-332): glyph writes and
recursion, threading the visited-path map and collecting the possibly
mutated children. -/
def printLoop (opts : Options)
    (recP : String → Node → List String →
      Except Stop (List Write × Node × List String)) :
    String → List Node → List String →
      Except Stop (List Write × List Node × List String)
  | _, [], vp => Except.ok ([], [], vp)
  | indent, n :: rest, vp =>
    let glyph : List Write :=
      if opts.NoIndent then []
      else [(Dest.outFile, indent ++ (if rest.isEmpty then "└── " else "├── "))]
    let add : String :=
      if opts.NoIndent then "" else if rest.isEmpty then "    " else "│   "
    match recP (indent ++ add) n vp with
    | Except.error s => Except.error s
    | Except.ok (w1, n', vp1) =>
      match printLoop opts recP indent rest vp1 with
      | Except.error s => Except.error s
      | Except.ok (w2, rest', vp2) => Except.ok (glyph ++ w1 ++ w2, n' :: rest', vp2)

/-- `print` (node.go lines 196-333), with fuel bounding the rendering
depth (including symlink-follow sub-traversals).  Returns the writes in
emission order, the node after any in-place mutation, and the threaded
visited-path map. -/
def print (env : Env) (opts : Options) :
    Nat → String → Node → List String →
      Except Stop (List Write × Node × List String)
  | 0, _, _, _ => Except.error Stop.fuelOut
  | Nat.succ fuel, indent, node, vp =>
    match node.err with
    | some e =>
      Except.ok ([(Dest.stdout, node.path ++ " [" ++ shortErr e ++ "]\n")], node, vp)
    | none =>
      match node.info with
      | none => Except.error Stop.panicNilInfo
      | some fi =>
        match (if fi.IsDir = false then
                match fi.Sys with
                | none => Except.error Stop.panicSysAssert
                | some st => Except.ok (propsWrites (propsFile env opts fi st))
               else Except.ok (propsWrites (propsDir opts node)) :
               Except Stop (List Write)) with
        | Except.error s => Except.error s
        | Except.ok pw =>
          match symlinkStep env opts (visit env opts fuel) node fi
              (displayName env opts node fi) vp with
          | Except.error s => Except.error s
          | Except.ok (nm, ns, vp') =>
            match printLoop opts (print env opts fuel) indent ns vp' with
            | Except.error s => Except.error s
            | Except.ok (cw, ns', vp2) =>
              Except.ok (pw ++ [(Dest.outFile, nm ++ "\n")] ++ cw,
                Node.mk (some fi) node.path node.depth none ns', vp2)

/-- `Print` (node.go line 179): `print` with an empty indent. -/
def printTop (env : Env) (opts : Options) (fuel : Nat) (node : Node)
    (vp : List String) : Except Stop (List Write × Node × List String) :=
  print env opts fuel "" node vp

mutual

/-- The rendering frame of `print`: the node after rendering keeps the
metadata, path, depth and error of the node before, and its children
are the recursively rendered forms of either the original children or
— only with `FollowLink` set, for a symlink node — the children
adopted from a fresh traversal rooted at the link's resolved target
(the line-309 mutation `node.nodes = inf.nodes`). -/
def frameOK (env : Env) (opts : Options) : Node → Node → Prop
  | b, Node.mk i p d e ns2 =>
    i = b.info ∧ p = b.path ∧ d = b.depth ∧ e = b.err ∧
    (frameOKList env opts b.nodes ns2 ∨
      (opts.FollowLink = true ∧ b.fi.Mode.symlink = true ∧
        ∃ (f : FileInfo) (fl : Nat) (vp0 vp1 : List String) (inf : Node)
          (dd ff : Int),
          targetInfo env b = some f ∧
          visit env opts fl (Node.mk (some f) (targetPath env b) 0 none [])
              vp0 = some (inf, vp1, dd, ff) ∧
          frameOKList env opts inf.nodes ns2))

/-- Pointwise `frameOK` between a before-children list and an
after-children list of the same length. -/
def frameOKList (env : Env) (opts : Options) : List Node → List Node → Prop
  | bs, [] => bs = []
  | bs, a :: rest =>
    ∃ b bs2, bs = b :: bs2 ∧ frameOK env opts b a ∧
      frameOKList env opts bs2 rest

end

/-! ## Counting functions over the built tree, used to state the
`Visit` count recurrence -/

mutual
/-- The directory count `Visit` reports for the subtree it built at a
node: 0 for errored nodes and non-directories, 1 plus the children's
directory counts for a directory. -/
def nodeDirs : Node → Int
  | .mk info _ _ err ns =>
    match err with
    | some _ => 0
    | none =>
      match info with
      | none => 0
      | some fi => if fi.IsDir then 1 + nodeDirsList ns else 0

/-- Sum of `nodeDirs` over a child list. -/
def nodeDirsList : List Node → Int
  | [] => 0
  | n :: rest => nodeDirs n + nodeDirsList rest
end

mutual
/-- The file count `Visit` reports for the subtree it built at a node:
0 for errored nodes, 1 for non-directories, the children's sum for a
directory. -/
def nodeFiles : Node → Int
  | .mk info _ _ err ns =>
    match err with
    | some _ => 0
    | none =>
      match info with
      | none => 0
      | some fi => if fi.IsDir then nodeFilesList ns else 1

/-- Sum of `nodeFiles` over a child list. -/
def nodeFilesList : List Node → Int
  | [] => 0
  | n :: rest => nodeFiles n + nodeFilesList rest
end

/-! ## Concrete scenarios

Small fully concrete file systems used to instantiate the theorems:
a directory containing a symlink back to itself (the cycle scenario),
and a directory containing a symlink to a second directory (the
adoption scenario). -/

/-- A mode with no special bits. -/
def plainMode : FMode := ⟨false, false, false, false, false, "-rw-r--r--"⟩

/-- A symlink mode. -/
def linkMode : FMode := ⟨true, false, false, false, false, "Lrwxrwxrwx"⟩

def stZero : StatT := ⟨7, 1, 0, 0, 0⟩

def dirFiA : FileInfo := ⟨"a", 0, true, plainMode, 0, some stZero⟩

def linkFi : FileInfo := ⟨"l", 0, false, linkMode, 0, some stZero⟩

def dirFiB : FileInfo := ⟨"b", 0, true, plainMode, 0, some stZero⟩

def fileFiF : FileInfo := ⟨"f", 5, false, plainMode, 3, some stZero⟩

/-- Options with every flag off except `FollowLink`.  Field order:
All, DirsOnly, FullPath, IgnoreCase, FollowLink, DeepLevel, Pattern,
IPattern, ByteSize, UnitSize, FileMode, ShowUid, ShowGid, LastMod,
Quotes, Inodes, Device, NoSort, VerSort, ModSort, DirSort, NameSort,
SizeSort, CTimeSort, ReverSort, NoIndent, Colorize. -/
def optsFollow : Options :=
  ⟨false, false, false, false, true, 0, "", "", false, false, false, false,
   false, false, false, false, false, false, false, false, false, false,
   false, false, false, false, false⟩

/-- The cycle scenario: `/a` is a directory whose sole entry `l` is a
symlink resolving back to `/a`. -/
def cycEnv : Env :=
  ⟨fun p => if p = "/a" then Except.ok dirFiA
    else if p = "/a/l" then Except.ok linkFi
    else Except.error ("open " ++ p ++ ": no such file or directory"),
   fun p => if p = "/a" then Except.ok ["l"]
    else Except.error ("open " ++ p ++ ": not a directory"),
   fun p => Except.ok p,
   fun p => p,
   fun p n => p ++ "/" ++ n,
   fun p => if p = "/a/l" then Except.ok "/a"
    else Except.error ("readlink " ++ p ++ ": invalid argument"),
   fun p => if p = "/a/l" then Except.ok "/a"
    else if p = "/a" then Except.ok "/a"
    else Except.error ("lstat " ++ p ++ ": no such file or directory"),
   fun _ => none,
   fun t => toString t,
   fun _ => none⟩

/-- The adoption scenario: `/a` contains the symlink `l` pointing to
the directory `/b`, which contains the plain file `f`. -/
def adoptEnv : Env :=
  ⟨fun p => if p = "/a" then Except.ok dirFiA
    else if p = "/a/l" then Except.ok linkFi
    else if p = "/b" then Except.ok dirFiB
    else if p = "/b/f" then Except.ok fileFiF
    else Except.error ("open " ++ p ++ ": no such file or directory"),
   fun p => if p = "/a" then Except.ok ["l"]
    else if p = "/b" then Except.ok ["f"]
    else Except.error ("open " ++ p ++ ": not a directory"),
   fun p => Except.ok p,
   fun p => p,
   fun p n => p ++ "/" ++ n,
   fun p => if p = "/a/l" then Except.ok "/b"
    else Except.error ("readlink " ++ p ++ ": invalid argument"),
   fun p => if p = "/a/l" then Except.ok "/b"
    else if p = "/a" then Except.ok "/a"
    else if p = "/b" then Except.ok "/b"
    else Except.error ("lstat " ++ p ++ ": no such file or directory"),
   fun _ => none,
   fun t => toString t,
   fun _ => none⟩

/-! ## Claim C5 — byte-size formatting -/

/-! ## Declarations used by the claim theorems and witnesses below -/

/-- A non-directory `FileInfo` whose `Sys()` is not a `*syscall.Stat_t`. -/
def noSysFi : FileInfo := ⟨"x", 0, false, plainMode, 0, none⟩

/-- Options with only the sort-related flags set, in order:
NoSort, VerSort, ModSort, DirSort, NameSort, SizeSort, CTimeSort,
ReverSort. -/
def mkSortOpts (noSort ver mod dir name size ctime rever : Bool) : Options :=
  ⟨false, false, false, false, false, 0, "", "", false, false, false, false,
   false, false, false, false, false, noSort, ver, mod, dir, name, size,
   ctime, rever, false, false⟩

/-- Replace only the `ReverSort` field. -/
def Options.setRever (o : Options) (b : Bool) : Options :=
  Options.mk o.All o.DirsOnly o.FullPath o.IgnoreCase o.FollowLink o.DeepLevel
    o.Pattern o.IPattern o.ByteSize o.UnitSize o.FileMode o.ShowUid o.ShowGid
    o.LastMod o.Quotes o.Inodes o.Device o.NoSort o.VerSort o.ModSort o.DirSort
    o.NameSort o.SizeSort o.CTimeSort b o.NoIndent o.Colorize

/-- A non-directory sibling: name "b", size 2, mtime 2, ctime 2. -/
def nX : Node := Node.mk (some ⟨"b", 2, false, plainMode, 2, some ⟨1, 1, 0, 0, 2⟩⟩)
  "/d/b" 1 none []

/-- A directory sibling: name "a", size 1, mtime 1, ctime 1 — strictly
below `nX` under every one of the six policies. -/
def nY : Node := Node.mk (some ⟨"a", 1, true, plainMode, 1, some ⟨2, 1, 0, 0, 1⟩⟩)
  "/d/a" 1 none []

/-- A file of size 7: a size-comparator tie with `nT2`. -/
def nT1 : Node := Node.mk (some ⟨"t1", 7, false, plainMode, 5, some stZero⟩)
  "/d/t1" 1 none []

/-- A file of size 7: a size-comparator tie with `nT1`. -/
def nT2 : Node := Node.mk (some ⟨"t2", 7, false, plainMode, 6, some stZero⟩)
  "/d/t2" 1 none []

/-- An options value with only the filter-related fields set, in order:
DirsOnly, IgnoreCase, Pattern, IPattern. -/
def mkFilterOpts (dirsOnly ic : Bool) (pat ipat : String) : Options :=
  ⟨false, dirsOnly, false, ic, false, 0, pat, ipat, false, false, false, false,
   false, false, false, false, false, false, false, false, false, false,
   false, false, false, false, false⟩

/-- An environment whose regular-expression compiler knows exactly the
pattern `"g"` (matching only `"main.go"`); everything else fails to
compile. -/
def patEnv : Env :=
  ⟨fun p => Except.error ("open " ++ p ++ ": no such file or directory"),
   fun p => Except.error ("open " ++ p ++ ": not a directory"),
   fun p => Except.ok p,
   fun p => p,
   fun p n => p ++ "/" ++ n,
   fun p => Except.error ("readlink " ++ p ++ ": invalid argument"),
   fun p => Except.error ("lstat " ++ p ++ ": no such file or directory"),
   fun _ => none,
   fun t => toString t,
   fun s => if s = "g" then some (fun n => n == "main.go") else none⟩

/-- The tree `Visit` builds in the adoption scenario. -/
def adoptTree : Node :=
  Node.mk (some dirFiA) "/a" 0 none [Node.mk (some linkFi) "/a/l" 1 none []]

/-- The same tree after `Print` with `FollowLink`: the symlink node has
adopted the child of `/b`. -/
def adoptTreeAfter : Node :=
  Node.mk (some dirFiA) "/a" 0 none
    [Node.mk (some linkFi) "/a/l" 1 none
      [Node.mk (some fileFiF) "/b/f" 1 none []]]

/-- The extension key `ANSIColor` looks up for a node. -/
def extKey (n : Node) : String := toLowerGo (goExt n.Name)

/-- A socket mode, a pipe mode, a block-device mode and a char-device
mode for the witness nodes. -/
def sockMode : FMode := ⟨false, true, false, false, false, "Srwxrwxrwx"⟩

def pipeMode : FMode := ⟨false, false, true, false, false, "prw-rw-rw-"⟩

def blkMode : FMode := ⟨false, false, false, true, false, "Drw-rw----"⟩

def chrMode : FMode := ⟨false, false, false, false, true, "crw-rw-rw-"⟩

/-- The tree `Visit` builds in the cycle scenario: `/a` with the single
symlink child `l`. -/
def cycTree : Node :=
  Node.mk (some dirFiA) "/a" 0 none [Node.mk (some linkFi) "/a/l" 1 none []]

/-- The claim's `N`: attached error-free non-directory children. -/
def keptFileCount (ns : List Node) : Int :=
  ((ns.filter (fun c => c.err.isNone && !c.IsDir)).length : Int)

/-- Sum of the file counts of the attached error-free subdirectories. -/
def subdirFiles (ns : List Node) : Int :=
  ((ns.filter (fun c => c.err.isNone && c.IsDir)).map nodeFiles).sum

/-- Sum of the directory counts of the attached error-free
subdirectories. -/
def subdirDirs (ns : List Node) : Int :=
  ((ns.filter (fun c => c.err.isNone && c.IsDir)).map nodeDirs).sum

/-- An environment whose directory `/r` stats fine but refuses to be
listed. -/
def roEnv : Env :=
  ⟨fun p => if p = "/r" then Except.ok dirFiA
    else Except.error ("open " ++ p ++ ": no such file or directory"),
   fun p => Except.error ("open " ++ p ++ ": permission denied"),
   fun p => Except.ok p,
   fun p => p,
   fun p n => p ++ "/" ++ n,
   fun p => Except.error ("readlink " ++ p ++ ": invalid argument"),
   fun p => Except.error ("lstat " ++ p ++ ": no such file or directory"),
   fun _ => none,
   fun t => toString t,
   fun _ => none⟩

@[simp] theorem Node.setInfo_path (n : Node) (f : FileInfo) :
    (n.setInfo f).path = n.path := by cases n with | mk i p d e ns => rfl

@[simp] theorem Node.setInfo_depth (n : Node) (f : FileInfo) :
    (n.setInfo f).depth = n.depth := by cases n with | mk i p d e ns => rfl

@[simp] theorem Node.setInfo_err (n : Node) (f : FileInfo) :
    (n.setInfo f).err = n.err := by cases n with | mk i p d e ns => rfl

@[simp] theorem Node.setInfo_nodes (n : Node) (f : FileInfo) :
    (n.setInfo f).nodes = n.nodes := by cases n with | mk i p d e ns => rfl

/-! ## Claim C1 — `Visit` count recurrence -/

/-- `nodeDirsList` is the sum of `nodeDirs` over the list. -/
theorem nodeDirsList_eq_sum (l : List Node) :
    nodeDirsList l = (l.map nodeDirs).sum := by
  induction l with
  | nil => rfl
  | cons n rest ih => simp [nodeDirsList, ih]

/-- `nodeFilesList` is the sum of `nodeFiles` over the list. -/
theorem nodeFilesList_eq_sum (l : List Node) :
    nodeFilesList l = (l.map nodeFiles).sum := by
  induction l with
  | nil => rfl
  | cons n rest ih => simp [nodeFilesList, ih]

/-- Permutations preserve the directory-count sum. -/
theorem nodeDirsList_perm {l l' : List Node} (h : l.Perm l') :
    nodeDirsList l = nodeDirsList l' := by
  rw [nodeDirsList_eq_sum, nodeDirsList_eq_sum]
  exact (h.map nodeDirs).sum_eq

/-- Permutations preserve the file-count sum. -/
theorem nodeFilesList_perm {l l' : List Node} (h : l.Perm l') :
    nodeFilesList l = nodeFilesList l' := by
  rw [nodeFilesList_eq_sum, nodeFilesList_eq_sum]
  exact (h.map nodeFiles).sum_eq

/-- The sorting step permutes the children. -/
theorem applySort_perm (opts : Options) (ns : List Node) :
    (applySort opts ns).Perm ns := by
  unfold applySort sortNodes goSortSort
  split
  · exact List.Perm.refl ns
  · split
    · exact List.Perm.refl ns
    · split
      · exact List.perm_insertionSort _ _
      · exact List.perm_insertionSort _ _

/-- A node `Visit` hands back is never error-free with a nil
`FileInfo`: every outcome either records an error or installs the
statted metadata. -/
theorem visit_good (fuel : Nat) (env : Env) (opts : Options) (node : Node)
    (vp : List String) (r : Node × List String × Int × Int)
    (h : visit env opts fuel node vp = some r) :
    r.1.err = none → r.1.info.isSome = true := by
  cases fuel with
  | zero => simp [visit] at h
  | succ fuel =>
    cases node with
    | mk i p d e ns =>
      simp only [visit, Node.path, Node.depth, Node.setInfo, Node.setErr,
        Node.setNodes] at h
      cases hstat : env.stat p with
      | error msg =>
        simp only [hstat, Option.some.injEq] at h
        subst h
        intro hc
        simp at hc
      | ok fi =>
        simp only [hstat] at h
        cases hdir : fi.IsDir with
        | false =>
          simp only [hdir, eq_self_iff_true, if_true, Option.some.injEq] at h
          subst h
          intro hc
          simp
        | true =>
          simp only [hdir, Bool.true_eq_false, if_false] at h
          by_cases hdeep : 0 < opts.DeepLevel ∧ opts.DeepLevel ≤ d
          · rw [if_pos hdeep] at h
            simp only [Option.some.injEq] at h
            subst h
            intro hc
            simp
          · rw [if_neg hdeep] at h
            cases hread : env.readDir p with
            | error msg =>
              simp only [Node.path, hread, Option.some.injEq] at h
              subst h
              intro hc
              simp at hc
            | ok names =>
              simp only [Node.path, hread] at h
              cases heql : visitLoop env opts (visit env opts fuel) p d
                  names (vpAdd env p vp) with
              | none => simp [Node.depth, heql] at h
              | some x =>
                obtain ⟨chs, vp2, dl, fl⟩ := x
                simp only [Node.depth, heql, Option.some.injEq] at h
                subst h
                intro hc
                simp

/-- Every child `visitLoop` attaches comes from a `vc` call, so it
inherits `vc`'s guarantee. -/
theorem visitLoop_good (env : Env) (opts : Options)
    (vc : Node → List String → Option (Node × List String × Int × Int))
    (hvc : ∀ (node : Node) (vp : List String)
      (r : Node × List String × Int × Int),
      vc node vp = some r → r.1.err = none → r.1.info.isSome = true) :
    ∀ (names : List String) (pp : String) (pd : Int) (vp : List String)
      (chs : List Node) (vp' : List String) (dc fc : Int),
      visitLoop env opts vc pp pd names vp = some (chs, vp', dc, fc) →
      ∀ c ∈ chs, c.err = none → c.info.isSome = true := by
  intro names
  induction names with
  | nil =>
    intro pp pd vp chs vp' dc fc h
    simp only [visitLoop, Option.some.injEq, Prod.mk.injEq] at h
    obtain ⟨h1, -⟩ := h
    subst h1
    intro c hc
    simp at hc
  | cons name rest ihn =>
    intro pp pd vp chs vp' dc fc h
    simp only [visitLoop] at h
    by_cases hskip : (!opts.All && startsDot name) = true
    · simp only [hskip, if_true] at h
      exact ihn _ _ _ _ _ _ _ h
    · simp only [hskip, if_false, Bool.false_eq_true] at h
      cases heq : vc (Node.mk none (env.joinPath pp name) (pd + 1) none [])
          vp with
      | none => simp [heq] at h
      | some r =>
        obtain ⟨c, vp1, d1, f1⟩ := r
        simp only [heq] at h
        cases heq2 : visitLoop env opts vc pp pd rest vp1 with
        | none => simp [heq2] at h
        | some x =>
          obtain ⟨chs2, vp2, d2, f2⟩ := x
          simp only [heq2] at h
          by_cases hkeep : keepChild env opts c name = true
          · simp only [hkeep, if_true, Option.some.injEq, Prod.mk.injEq] at h
            obtain ⟨hc, -⟩ := h
            subst hc
            intro cc hcc
            cases hcc with
            | head => exact hvc _ _ _ heq
            | tail _ hmem => exact ihn _ _ _ _ _ _ _ heq2 cc hmem
          · rw [if_neg hkeep] at h
            simp only [Option.some.injEq, Prod.mk.injEq] at h
            obtain ⟨hc, -⟩ := h
            subst hc
            exact ihn _ _ _ _ _ _ _ heq2

/-- The counts `visitLoop` accumulates are the sums of the attached
children's tree counts, provided `vc` reports tree counts. -/
theorem visitLoop_counts (env : Env) (opts : Options)
    (vc : Node → List String → Option (Node × List String × Int × Int))
    (hvc : ∀ (node : Node) (vp : List String) (n' : Node) (vp' : List String)
      (dc fc : Int), node.err = none → node.nodes = [] →
      vc node vp = some (n', vp', dc, fc) →
      dc = nodeDirs n' ∧ fc = nodeFiles n') :
    ∀ (names : List String) (pp : String) (pd : Int) (vp : List String)
      (chs : List Node) (vp' : List String) (dcount fcount : Int),
      visitLoop env opts vc pp pd names vp = some (chs, vp', dcount, fcount) →
      dcount = nodeDirsList chs ∧ fcount = nodeFilesList chs := by
  intro names
  induction names with
  | nil =>
    intro pp pd vp chs vp' dc fc h
    simp only [visitLoop, Option.some.injEq, Prod.mk.injEq] at h
    obtain ⟨h1, -, h3, h4⟩ := h
    subst h1
    exact ⟨h3.symm, h4.symm⟩
  | cons name rest ihn =>
    intro pp pd vp chs vp' dc fc h
    simp only [visitLoop] at h
    by_cases hskip : (!opts.All && startsDot name) = true
    · simp only [hskip, if_true] at h
      exact ihn _ _ _ _ _ _ _ h
    · simp only [hskip, if_false, Bool.false_eq_true] at h
      cases heq : vc (Node.mk none (env.joinPath pp name) (pd + 1) none [])
          vp with
      | none => simp [heq] at h
      | some r =>
        obtain ⟨c, vp1, d1, f1⟩ := r
        simp only [heq] at h
        cases heq2 : visitLoop env opts vc pp pd rest vp1 with
        | none => simp [heq2] at h
        | some x =>
          obtain ⟨chs2, vp2, d2, f2⟩ := x
          simp only [heq2] at h
          obtain ⟨hd1, hf1⟩ := hvc
            (Node.mk none (env.joinPath pp name) (pd + 1) none []) vp
            c vp1 d1 f1 rfl rfl heq
          obtain ⟨hd2, hf2⟩ := ihn _ _ _ _ _ _ _ heq2
          by_cases hkeep : keepChild env opts c name = true
          · simp only [hkeep, if_true, Option.some.injEq, Prod.mk.injEq] at h
            obtain ⟨hc, -, hdc, hfc⟩ := h
            subst hc
            constructor
            · rw [← hdc, hd1, hd2]
              rfl
            · rw [← hfc, hf1, hf2]
              rfl
          · rw [if_neg hkeep] at h
            simp only [Option.some.injEq, Prod.mk.injEq] at h
            obtain ⟨hc, -, hdc, hfc⟩ := h
            subst hc
            exact ⟨hdc ▸ hd2, hfc ▸ hf2⟩

/-- The counts `Visit` returns are the tree counts of the node it
builds. -/
theorem visit_counts :
    ∀ (fuel : Nat) (env : Env) (opts : Options) (node : Node)
      (vp : List String) (n' : Node) (vp' : List String) (dcount fcount : Int),
      node.err = none → node.nodes = [] →
      visit env opts fuel node vp = some (n', vp', dcount, fcount) →
      dcount = nodeDirs n' ∧ fcount = nodeFiles n' := by
  intro fuel
  induction fuel with
  | zero =>
    intro env opts node vp n' vp' dc fc herr hns h
    simp [visit] at h
  | succ fuel ih =>
    intro env opts node vp n' vp' dc fc herr hns h
    cases node with
    | mk i p d e ns =>
      simp only [Node.err] at herr
      simp only [Node.nodes] at hns
      subst herr hns
      simp only [visit, Node.path, Node.depth, Node.setInfo, Node.setErr,
        Node.setNodes] at h
      cases hstat : env.stat p with
      | error msg =>
        simp only [hstat, Node.setErr, Option.some.injEq, Prod.mk.injEq] at h
        obtain ⟨hn, -, hd, hf⟩ := h
        subst hn
        exact ⟨by rw [← hd]; rfl, by rw [← hf]; rfl⟩
      | ok fi =>
        simp only [hstat] at h
        cases hdir : fi.IsDir with
        | false =>
          simp only [hdir, eq_self_iff_true, if_true, Node.setInfo,
            Option.some.injEq, Prod.mk.injEq] at h
          obtain ⟨hn, -, hd, hf⟩ := h
          subst hn
          constructor
          · rw [← hd]
            simp [nodeDirs, hdir]
          · rw [← hf]
            simp [nodeFiles, hdir]
        | true =>
          simp only [hdir, Bool.true_eq_false, if_false] at h
          by_cases hdeep : 0 < opts.DeepLevel ∧ opts.DeepLevel ≤ d
          · rw [if_pos hdeep] at h
            simp only [Option.some.injEq, Prod.mk.injEq] at h
            obtain ⟨hn, -, hd, hf⟩ := h
            subst hn
            constructor
            · rw [← hd]
              simp [nodeDirs, hdir, nodeDirsList]
            · rw [← hf]
              simp [nodeFiles, hdir, nodeFilesList]
          · rw [if_neg hdeep] at h
            cases hread : env.readDir p with
            | error msg =>
              simp only [Node.path, hread, Node.setInfo, Node.setErr,
                Option.some.injEq, Prod.mk.injEq] at h
              obtain ⟨hn, -, hd, hf⟩ := h
              subst hn
              exact ⟨by rw [← hd]; rfl, by rw [← hf]; rfl⟩
            | ok names =>
              simp only [Node.path, hread, Node.depth] at h
              cases heql : visitLoop env opts (visit env opts fuel) p d
                  names (vpAdd env p vp) with
              | none => simp [heql] at h
              | some x =>
                obtain ⟨chs, vp2, dl, fl⟩ := x
                simp only [heql, Node.setInfo, Node.setNodes,
                  Option.some.injEq, Prod.mk.injEq] at h
                obtain ⟨hdl, hfl⟩ := visitLoop_counts env opts
                  (visit env opts fuel)
                  (fun node vp n' vp' dc fc he hn hh =>
                    ih env opts node vp n' vp' dc fc he hn hh)
                  _ _ _ _ _ _ _ _ heql
                obtain ⟨hn, -, hd, hf⟩ := h
                subst hn
                have hperm := applySort_perm opts chs
                constructor
                · rw [← hd, hdl]
                  simp only [nodeDirs, hdir, if_true]
                  rw [nodeDirsList_perm hperm]
                  omega
                · rw [← hf, hfl]
                  simp only [nodeFiles, hdir, if_true]
                  rw [nodeFilesList_perm hperm]

/-- Splitting the directory sum: only error-free directory children
contribute. -/
theorem nodeDirsList_split (ns : List Node) :
    nodeDirsList ns = subdirDirs ns := by
  induction ns with
  | nil => rfl
  | cons n rest ih =>
    cases n with
    | mk i p d e cns =>
      cases hp : ((Node.mk i p d e cns).err.isNone &&
          (Node.mk i p d e cns).IsDir) with
      | false =>
        have h0 : nodeDirs (Node.mk i p d e cns) = 0 := by
          simp only [Node.err, Node.IsDir, Node.fi, Node.info, Option.getD,
            Bool.and_eq_false_iff] at hp ⊢
          cases e with
          | some msg => rfl
          | none =>
            rcases hp with hp | hp
            · simp at hp
            · simp only [nodeDirs]
              cases i with
              | none => simp at hp ⊢
              | some fi => simp_all
        simp only [nodeDirsList, subdirDirs, List.filter_cons, hp,
          Bool.false_eq_true, if_false, h0] at ih ⊢
        omega
      | true =>
        simp only [nodeDirsList, subdirDirs, List.filter_cons, hp,
          eq_self_iff_true, if_true, List.map_cons, List.sum_cons] at ih ⊢
        omega

/-- Splitting the file sum: kept non-directory children contribute one
each, error-free directory children their own file counts. -/
theorem nodeFilesList_split (ns : List Node)
    (hgood : ∀ c ∈ ns, c.err = none → c.info.isSome = true) :
    nodeFilesList ns = keptFileCount ns + subdirFiles ns := by
  induction ns with
  | nil => rfl
  | cons n rest ih =>
    have hgr : ∀ c ∈ rest, c.err = none → c.info.isSome = true :=
      fun c hn => hgood c (List.mem_cons_of_mem _ hn)
    have ihr := ih hgr
    cases n with
    | mk i p d e cns =>
      cases e with
      | some msg =>
        have hp1 : ((Node.mk i p d (some msg) cns).err.isNone &&
            !(Node.mk i p d (some msg) cns).IsDir) = false := by simp
        have hp2 : ((Node.mk i p d (some msg) cns).err.isNone &&
            (Node.mk i p d (some msg) cns).IsDir) = false := by simp
        have h0 : nodeFiles (Node.mk i p d (some msg) cns) = 0 := rfl
        simp only [nodeFilesList, keptFileCount, subdirFiles,
          List.filter_cons, hp1, hp2, Bool.false_eq_true, if_false, h0]
          at ihr ⊢
        omega
      | none =>
        cases i with
        | none =>
          have := hgood (Node.mk none p d none cns) (List.mem_cons_self _ _) rfl
          simp at this
        | some fi =>
          cases hdir : fi.IsDir with
          | false =>
            have hp1 : ((Node.mk (some fi) p d none cns).err.isNone &&
                !(Node.mk (some fi) p d none cns).IsDir) = true := by
              simp [Node.IsDir, Node.fi, hdir]
            have hp2 : ((Node.mk (some fi) p d none cns).err.isNone &&
                (Node.mk (some fi) p d none cns).IsDir) = false := by
              simp [Node.IsDir, Node.fi, hdir]
            have h1 : nodeFiles (Node.mk (some fi) p d none cns) = 1 := by
              simp [nodeFiles, hdir]
            simp only [nodeFilesList, keptFileCount, subdirFiles,
              List.filter_cons, hp1, hp2, eq_self_iff_true, if_true,
              Bool.false_eq_true, if_false, List.length_cons, h1] at ihr ⊢
            push_cast
            omega
          | true =>
            have hp1 : ((Node.mk (some fi) p d none cns).err.isNone &&
                !(Node.mk (some fi) p d none cns).IsDir) = false := by
              simp [Node.IsDir, Node.fi, hdir]
            have hp2 : ((Node.mk (some fi) p d none cns).err.isNone &&
                (Node.mk (some fi) p d none cns).IsDir) = true := by
              simp [Node.IsDir, Node.fi, hdir]
            simp only [nodeFilesList, keptFileCount, subdirFiles,
              List.filter_cons, hp1, hp2, eq_self_iff_true, if_true,
              Bool.false_eq_true, if_false, List.map_cons, List.sum_cons]
              at ihr ⊢
            omega

/-- The children of the node `Visit` builds from a fresh node all obey
the error/metadata invariant. -/
theorem visit_children_good (fuel : Nat) (env : Env) (opts : Options)
    (node : Node) (vp : List String) (n' : Node) (vp' : List String)
    (dc fc : Int) (hns : node.nodes = [])
    (h : visit env opts fuel node vp = some (n', vp', dc, fc)) :
    ∀ c ∈ n'.nodes, c.err = none → c.info.isSome = true := by
  cases fuel with
  | zero => simp [visit] at h
  | succ fuel =>
    cases node with
    | mk i p d e ns =>
      simp only [Node.nodes] at hns
      subst hns
      simp only [visit, Node.path, Node.depth, Node.setInfo, Node.setErr,
        Node.setNodes] at h
      cases hstat : env.stat p with
      | error msg =>
        simp only [hstat, Node.setErr, Option.some.injEq, Prod.mk.injEq] at h
        obtain ⟨hn, -⟩ := h
        subst hn
        simp
      | ok fi =>
        simp only [hstat] at h
        cases hdir : fi.IsDir with
        | false =>
          simp only [hdir, eq_self_iff_true, if_true, Node.setInfo,
            Option.some.injEq, Prod.mk.injEq] at h
          obtain ⟨hn, -⟩ := h
          subst hn
          simp
        | true =>
          simp only [hdir, Bool.true_eq_false, if_false] at h
          by_cases hdeep : 0 < opts.DeepLevel ∧ opts.DeepLevel ≤ d
          · rw [if_pos hdeep] at h
            simp only [Option.some.injEq, Prod.mk.injEq] at h
            obtain ⟨hn, -⟩ := h
            subst hn
            simp
          · rw [if_neg hdeep] at h
            cases hread : env.readDir p with
            | error msg =>
              simp only [Node.path, hread, Node.setInfo, Node.setErr,
                Option.some.injEq, Prod.mk.injEq] at h
              obtain ⟨hn, -⟩ := h
              subst hn
              simp
            | ok names =>
              simp only [Node.path, hread, Node.depth] at h
              cases heql : visitLoop env opts (visit env opts fuel) p d
                  names (vpAdd env p vp) with
              | none => simp [heql] at h
              | some x =>
                obtain ⟨chs, vp2, dl, fl⟩ := x
                simp only [heql, Node.setInfo, Node.setNodes,
                  Option.some.injEq, Prod.mk.injEq] at h
                obtain ⟨hn, -⟩ := h
                subst hn
                intro c hc
                simp only [Node.nodes] at hc
                have hc' : c ∈ chs :=
                  (applySort_perm opts chs).mem_iff.mp hc
                exact visitLoop_good env opts (visit env opts fuel)
                  (fun node vp r hh => visit_good fuel env opts node vp r hh)
                  _ _ _ _ _ _ _ _ heql c hc'

/-- C1: for a directory node that `Visit` statted and (possibly)
listed, the returned counts are `1 +` the subdirectory directory-count
sum and `N +` the subdirectory file-count sum, where `N` counts the
kept non-directory children; a non-directory returns `(0, 1)`; a stat
or directory-listing failure returns `(0, 0)`. -/
theorem C1_visit_counts :
    (∀ (fuel : Nat) (env : Env) (opts : Options) (node : Node)
        (vp : List String) (n' : Node) (vp' : List String) (dc fc : Int),
      node.err = none → node.nodes = [] →
      visit env opts fuel node vp = some (n', vp', dc, fc) →
      n'.err = none → n'.IsDir = true →
      dc = 1 + subdirDirs n'.nodes ∧
      fc = keptFileCount n'.nodes + subdirFiles n'.nodes) ∧
    (∀ (fuel : Nat) (env : Env) (opts : Options) (node : Node)
        (vp : List String) (fi : FileInfo),
      env.stat node.path = Except.ok fi → fi.IsDir = false →
      visit env opts (fuel + 1) node vp =
        some (node.setInfo fi, vpAdd env node.path vp, 0, 1)) ∧
    (∀ (fuel : Nat) (env : Env) (opts : Options) (node : Node)
        (vp : List String) (e : String),
      env.stat node.path = Except.error e →
      visit env opts (fuel + 1) node vp =
        some (node.setErr e, vpAdd env node.path vp, 0, 0)) ∧
    (∀ (fuel : Nat) (env : Env) (opts : Options) (node : Node)
        (vp : List String) (fi : FileInfo) (e : String),
      env.stat node.path = Except.ok fi → fi.IsDir = true →
      ¬(0 < opts.DeepLevel ∧ opts.DeepLevel ≤ node.depth) →
      env.readDir node.path = Except.error e →
      visit env opts (fuel + 1) node vp =
        some ((node.setInfo fi).setErr e, vpAdd env node.path vp, 0, 0)) := by
  refine ⟨?_, ?_, ?_, ?_⟩
  · intro fuel env opts node vp n' vp' dc fc herr hns h hererr hdir
    obtain ⟨hd, hf⟩ := visit_counts fuel env opts node vp n' vp' dc fc herr hns h
    have hgood := visit_children_good fuel env opts node vp n' vp' dc fc hns h
    cases n' with
    | mk i p d e cns =>
      simp only [Node.err] at hererr
      subst hererr
      simp only [Node.IsDir, Node.fi, Node.info, Option.getD] at hdir
      cases i with
      | none => simp at hdir
      | some fi =>
        have hdir2 : fi.IsDir = true := hdir
        simp only [Node.nodes] at hgood ⊢
        constructor
        · rw [hd]
          simp only [nodeDirs]
          rw [if_pos hdir2, nodeDirsList_split]
        · rw [hf]
          simp only [nodeFiles]
          rw [if_pos hdir2]
          exact nodeFilesList_split cns hgood
  · intro fuel env opts node vp fi hstat hdir
    cases node with
    | mk i p d e ns =>
      simp only [Node.path] at hstat
      simp only [visit, Node.path, Node.setInfo, hstat, hdir,
        eq_self_iff_true, if_true]
  · intro fuel env opts node vp e hstat
    cases node with
    | mk i p d e0 ns =>
      simp only [Node.path] at hstat
      simp only [visit, Node.path, Node.setErr, hstat]
  · intro fuel env opts node vp fi e hstat hdir hdeep hread
    cases node with
    | mk i p d e0 ns =>
      simp only [Node.path, Node.depth] at hstat hread hdeep
      simp only [visit, Node.path, Node.depth, Node.setInfo, Node.setErr,
        hstat, hdir, Bool.true_eq_false, if_false, hread]
      rw [if_neg hdeep]

/-- C1 witness: the recurrence at the adoption-scenario root, the
`(0, 1)` non-directory case, the `(0, 0)` stat-failure case and the
`(0, 0)` listing-failure case, all at concrete inputs. -/
theorem C1_visit_counts_witness :
    ((1 : Int) = 1 + subdirDirs cycTree.nodes ∧
     (1 : Int) = keptFileCount cycTree.nodes + subdirFiles cycTree.nodes) ∧
    visit cycEnv Options.zero 1 (Node.mk none "/a/l" 1 none []) [] =
      some ((Node.mk none "/a/l" 1 none []).setInfo linkFi,
        vpAdd cycEnv "/a/l" [], 0, 1) ∧
    visit cycEnv Options.zero 1 (Node.mk none "/zz" 0 none []) [] =
      some ((Node.mk none "/zz" 0 none []).setErr
        "open /zz: no such file or directory", vpAdd cycEnv "/zz" [], 0, 0) ∧
    visit roEnv Options.zero 1 (Node.mk none "/r" 0 none []) [] =
      some (((Node.mk none "/r" 0 none []).setInfo dirFiA).setErr
        "open /r: permission denied", vpAdd roEnv "/r" [], 0, 0) :=
  ⟨C1_visit_counts.1 5 cycEnv optsFollow (Node.mk none "/a" 0 none []) []
     cycTree ["/a/l", "/a"] 1 1 rfl rfl rfl rfl rfl,
   C1_visit_counts.2.1 0 cycEnv Options.zero (Node.mk none "/a/l" 1 none [])
     [] linkFi rfl rfl,
   C1_visit_counts.2.2.1 0 cycEnv Options.zero (Node.mk none "/zz" 0 none [])
     [] "open /zz: no such file or directory" rfl,
   C1_visit_counts.2.2.2 0 roEnv Options.zero (Node.mk none "/r" 0 none [])
     [] dirFiA "open /r: permission denied" rfl rfl (by decide) rfl⟩

/-! ## Claim C2 — symlink following and cycle detection -/

/-- C2: with follow-symlinks on, a symlink to a directory whose
canonical absolute path is already in the shared visited-set is
rendered with the `" [recursive, not followed]"` suffix and adopts no
children; an unvisited directory target is freshly traversed and its
children adopted; and the concrete symlink cycle (a directory whose
sole entry links back to itself) renders in bounded fuel with the link
emitted exactly once, suffixed, with no children. -/
theorem C2_symlink_follow :
    (∀ (env : Env) (opts : Options) (fuel : Nat) (indent : String)
        (p : String) (d : Int) (fi : FileInfo) (st : StatT) (vp : List String)
        (tp cp : String) (tfi : FileInfo),
      fi.IsDir = false → fi.Sys = some st → fi.Mode.symlink = true →
      opts.FollowLink = true →
      env.evalSymlinks p = Except.ok tp →
      env.stat tp = Except.ok tfi → tfi.IsDir = true →
      env.abs tp = Except.ok cp → env.clean cp ∈ vp →
      print env opts (fuel + 1) indent (Node.mk (some fi) p d none []) vp =
        Except.ok
          (propsWrites (propsFile env opts fi st) ++
            [(Dest.outFile,
              ((displayName env opts (Node.mk (some fi) p d none []) fi ++
                " -> " ++ vtargetDisp env opts (Node.mk (some fi) p d none [])) ++
                " [recursive, not followed]") ++ "\n")],
            Node.mk (some fi) p d none [], vp)) ∧
    (∀ (env : Env) (opts : Options) (fuel : Nat) (indent : String)
        (p : String) (d : Int) (ns : List Node) (fi : FileInfo) (st : StatT)
        (vp vp2 : List String) (tp cp : String) (tfi : FileInfo) (inf : Node)
        (dd ff : Int),
      fi.IsDir = false → fi.Sys = some st → fi.Mode.symlink = true →
      opts.FollowLink = true →
      env.evalSymlinks p = Except.ok tp →
      env.stat tp = Except.ok tfi → tfi.IsDir = true →
      env.abs tp = Except.ok cp → env.clean cp ∉ vp →
      visit env opts fuel (Node.mk (some tfi) tp 0 none []) vp =
        some (inf, vp2, dd, ff) →
      print env opts (fuel + 1) indent (Node.mk (some fi) p d none ns) vp =
        (match printLoop opts (print env opts fuel) indent inf.nodes vp2 with
         | Except.error s => Except.error s
         | Except.ok (cw, ns3, vp3) =>
           Except.ok
             (propsWrites (propsFile env opts fi st) ++
               [(Dest.outFile,
                 (displayName env opts (Node.mk (some fi) p d none ns) fi ++
                   " -> " ++ vtargetDisp env opts (Node.mk (some fi) p d none ns)) ++
                 "\n")] ++ cw,
              Node.mk (some fi) p d none ns3, vp3))) ∧
    (visit cycEnv optsFollow 5 (Node.mk none "/a" 0 none []) [] =
      some (cycTree, ["/a/l", "/a"], 1, 1) ∧
     printTop cycEnv optsFollow 5 cycTree ["/a/l", "/a"] =
      Except.ok ([(Dest.outFile, "/a\n"), (Dest.outFile, "└── "),
        (Dest.outFile, "l -> /a [recursive, not followed]\n")],
        cycTree, ["/a/l", "/a"])) := by
  refine ⟨?_, ?_, rfl, rfl⟩
  · intro env opts fuel indent p d fi st vp tp cp tfi hdir hsys hsym hfollow
      heval hstat htdir habs hmem
    have ht : targetPath env (Node.mk (some fi) p d none []) = tp := by
      simp [targetPath, Node.path, heval]
    have hti : targetInfo env (Node.mk (some fi) p d none []) = some tfi := by
      simp [targetInfo, ht, hstat]
    simp only [print, Node.err, Node.info, symlinkStep, Node.nodes, printLoop,
      hdir, hsys, hsym, hfollow, ht, hti, habs, htdir, hmem,
      eq_self_iff_true, if_true, Node.path, Node.depth, List.append_nil]
  · intro env opts fuel indent p d ns fi st vp vp2 tp cp tfi inf dd ff hdir
      hsys hsym hfollow heval hstat htdir habs hmem hvisit
    have ht : targetPath env (Node.mk (some fi) p d none ns) = tp := by
      simp [targetPath, Node.path, heval]
    have hti : targetInfo env (Node.mk (some fi) p d none ns) = some tfi := by
      simp [targetInfo, ht, hstat]
    simp only [print, Node.err, Node.info, symlinkStep, Node.nodes, hvisit,
      hdir, hsys, hsym, hfollow, ht, hti, habs, htdir, hmem,
      eq_self_iff_true, if_true, if_false, Node.path, Node.depth,
      List.append_nil]

/-- C2 witness: the visited case at the cycle scenario's symlink node
and the unvisited case at the adoption scenario's symlink node. -/
theorem C2_symlink_follow_witness :
    print cycEnv optsFollow 4 "    "
        (Node.mk (some linkFi) "/a/l" 1 none []) ["/a/l", "/a"] =
      Except.ok
        (propsWrites (propsFile cycEnv optsFollow linkFi stZero) ++
          [(Dest.outFile,
            ((displayName cycEnv optsFollow
                (Node.mk (some linkFi) "/a/l" 1 none []) linkFi ++
              " -> " ++ vtargetDisp cycEnv optsFollow
                (Node.mk (some linkFi) "/a/l" 1 none [])) ++
              " [recursive, not followed]") ++ "\n")],
          Node.mk (some linkFi) "/a/l" 1 none [], ["/a/l", "/a"]) ∧
    print adoptEnv optsFollow 4 "    "
        (Node.mk (some linkFi) "/a/l" 1 none []) ["/a/l", "/a"] =
      (match printLoop optsFollow (print adoptEnv optsFollow 3) "    "
          (Node.mk (some dirFiB) "/b" 0 none
            [Node.mk (some fileFiF) "/b/f" 1 none []]).nodes
          ["/b/f", "/b", "/a/l", "/a"] with
       | Except.error s => Except.error s
       | Except.ok (cw, ns3, vp3) =>
         Except.ok
           (propsWrites (propsFile adoptEnv optsFollow linkFi stZero) ++
             [(Dest.outFile,
               (displayName adoptEnv optsFollow
                   (Node.mk (some linkFi) "/a/l" 1 none []) linkFi ++
                 " -> " ++ vtargetDisp adoptEnv optsFollow
                   (Node.mk (some linkFi) "/a/l" 1 none [])) ++
               "\n")] ++ cw,
            Node.mk (some linkFi) "/a/l" 1 none ns3, vp3)) :=
  ⟨C2_symlink_follow.1 cycEnv optsFollow 3 "    " "/a/l" 1 linkFi stZero
     ["/a/l", "/a"] "/a" "/a" dirFiA rfl rfl rfl rfl rfl rfl rfl rfl
     (by decide),
   C2_symlink_follow.2.1 adoptEnv optsFollow 3 "    " "/a/l" 1 [] linkFi stZero
     ["/a/l", "/a"] ["/b/f", "/b", "/a/l", "/a"] "/b" "/b" dirFiB
     (Node.mk (some dirFiB) "/b" 0 none
       [Node.mk (some fileFiF) "/b/f" 1 none []]) 1 1
     rfl rfl rfl rfl rfl rfl rfl rfl (by decide) rfl⟩

/-- C5 counterexample: the claim maps 1073741824 (exactly 1 GiB) to
`"1.0G"`, but the code's strict `>` threshold sends exactly-1-GiB
values to the "M" branch, producing `"1024M"`. -/
theorem C5_formatBytes_counterexample :
    formatBytes 1073741824 = "1024M" ∧ "1024M" ≠ "1.0G" := by
  exact ⟨by decide, by decide⟩

/-- C5 (amended): `formatBytes` maps 0 to "0", 1023 to "1023", 1536 to
"1.5K", 10240 to "10K" and 1073741824 to "1024M"; a byte count gets
suffix G, M or K exactly when it strictly exceeds 1 GiB, 1 MiB or
1 KiB respectively (values exactly at a threshold fall into the lower
bucket), rendered with one decimal digit unless the scaled value is at
least 10 (then zero decimals); values not exceeding 1 KiB are rendered
as the raw integer with no suffix. -/
theorem C5_formatBytes_amended :
    (formatBytes 0 = "0" ∧ formatBytes 1023 = "1023" ∧
     formatBytes 1536 = "1.5K" ∧ formatBytes 10240 = "10K" ∧
     formatBytes 1073741824 = "1024M") ∧
    (∀ i : Int, 1024 * 1024 * 1024 < i →
      (10 * (1024 * 1024 * 1024) ≤ i →
        formatBytes i = toString (roundHalfEven i (1024 * 1024 * 1024)) ++ "G") ∧
      (i < 10 * (1024 * 1024 * 1024) →
        ∃ q r : Int, 0 ≤ r ∧ r < 10 ∧
          formatBytes i = toString q ++ "." ++ toString r ++ "G")) ∧
    (∀ i : Int, 1024 * 1024 < i → i ≤ 1024 * 1024 * 1024 →
      (10 * (1024 * 1024) ≤ i →
        formatBytes i = toString (roundHalfEven i (1024 * 1024)) ++ "M") ∧
      (i < 10 * (1024 * 1024) →
        ∃ q r : Int, 0 ≤ r ∧ r < 10 ∧
          formatBytes i = toString q ++ "." ++ toString r ++ "M")) ∧
    (∀ i : Int, 1024 < i → i ≤ 1024 * 1024 →
      (10 * 1024 ≤ i →
        formatBytes i = toString (roundHalfEven i 1024) ++ "K") ∧
      (i < 10 * 1024 →
        ∃ q r : Int, 0 ≤ r ∧ r < 10 ∧
          formatBytes i = toString q ++ "." ++ toString r ++ "K")) ∧
    (∀ i : Int, i ≤ 1024 → formatBytes i = toString i) := by
  refine ⟨⟨by decide, by decide, by decide, by decide, by decide⟩, ?_, ?_, ?_, ?_⟩
  · intro i hi
    refine ⟨fun h10 => ?_, fun hlt => ?_⟩
    · unfold formatBytes fmtScaled fmtF0
      rw [if_pos hi, if_pos h10]
    · unfold formatBytes fmtScaled fmtF1
      rw [if_pos hi, if_neg (by omega)]
      exact ⟨_, _, Int.emod_nonneg _ (by norm_num), Int.emod_lt_of_pos _ (by norm_num),
        rfl⟩
  · intro i hi hub
    refine ⟨fun h10 => ?_, fun hlt => ?_⟩
    · unfold formatBytes fmtScaled fmtF0
      rw [if_neg (by omega), if_pos hi, if_pos h10]
    · unfold formatBytes fmtScaled fmtF1
      rw [if_neg (by omega), if_pos hi, if_neg (by omega)]
      exact ⟨_, _, Int.emod_nonneg _ (by norm_num), Int.emod_lt_of_pos _ (by norm_num),
        rfl⟩
  · intro i hi hub
    refine ⟨fun h10 => ?_, fun hlt => ?_⟩
    · unfold formatBytes fmtScaled fmtF0
      rw [if_neg (by omega), if_neg (by omega), if_pos hi, if_pos h10]
    · unfold formatBytes fmtScaled fmtF1
      rw [if_neg (by omega), if_neg (by omega), if_pos hi, if_neg (by omega)]
      exact ⟨_, _, Int.emod_nonneg _ (by norm_num), Int.emod_lt_of_pos _ (by norm_num),
        rfl⟩
  · intro i hub
    unfold formatBytes
    rw [if_neg (by omega), if_neg (by omega), if_neg (by omega)]

/-- C5 amended witness: the theorem applied at 10 MiB (zero-decimal M
branch) and at 100 (raw-integer branch). -/
theorem C5_formatBytes_amended_witness :
    formatBytes 10485760 = toString (roundHalfEven 10485760 (1024 * 1024)) ++ "M" ∧
    formatBytes 100 = toString (100 : Int) :=
  ⟨(C5_formatBytes_amended.2.2.1 10485760 (by norm_num) (by norm_num)).1 (by norm_num),
   C5_formatBytes_amended.2.2.2.2 100 (by norm_num)⟩

/-! ## Claim C10 — unchecked `Sys()` type assertion -/

/-- C10: for every non-directory, non-error node, `print` performs the
type assertion `node.Sys().(*syscall.Stat_t)` before testing any
property-column flag, so rendering panics for any `Options` (including
all columns disabled) whenever `Sys()` is not a `*syscall.Stat_t`. -/
theorem C10_sys_assert_panics (env : Env) (opts : Options) (fuel : Nat)
    (indent : String) (node : Node) (fi : FileInfo) (vp : List String)
    (herr : node.err = none) (hinfo : node.info = some fi)
    (hdir : fi.IsDir = false) (hsys : fi.Sys = none) :
    print env opts (fuel + 1) indent node vp = Except.error Stop.panicSysAssert := by
  cases node with
  | mk info p d e ns =>
    simp only [Node.err] at herr
    simp only [Node.info] at hinfo
    subst herr hinfo
    simp only [print, Node.err, Node.info, hdir, hsys]
    rfl

/-- C10 witness: the panic at a concrete node with every
property-column option disabled. -/
theorem C10_sys_assert_panics_witness :
    print cycEnv Options.zero 1 "" (Node.mk (some noSysFi) "/x" 0 none []) [] =
      Except.error Stop.panicSysAssert :=
  C10_sys_assert_panics cycEnv Options.zero 0 "" _ noSysFi [] rfl rfl rfl rfl

/-! ## Claim C7 — output sink of error lines -/

/-- C7 (code bug): the error line of `print` is emitted with
`fmt.Printf`, i.e. to the process standard output, not to the sink
configured in `Options.OutFile` as every other write is. -/
theorem C7_error_line_to_stdout :
    printTop cycEnv Options.zero 1
        (Node.mk none "/p" 0 (some "open /p: permission denied") []) [] =
      Except.ok ([(Dest.stdout, "/p [permission denied]\n")],
        Node.mk none "/p" 0 (some "open /p: permission denied") [], []) ∧
    Dest.stdout ≠ Dest.outFile :=
  ⟨rfl, by decide⟩

/-! ## Claim C6 — error-node rendering -/

/-- C6 counterexample: for the error text `"a: b: c"` the code renders
the second `": "`-separated segment `"b"`, not the trailing segment
`"b: c"` the claim describes. -/
theorem C6_shorterr_counterexample :
    printTop cycEnv Options.zero 1 (Node.mk none "/p" 0 (some "a: b: c") []) [] =
      Except.ok ([(Dest.stdout, "/p [b]\n")],
        Node.mk none "/p" 0 (some "a: b: c") [], []) ∧
    "/p [b]\n" ≠ "/p [b: c]\n" :=
  ⟨rfl, by decide⟩

/-- C6 (amended): an errored node is rendered as the single line
`"<path> [<short-error>]"` with no children and no mutation, where the
short error is the second `": "`-separated segment of the error text
(the whole text when it has no `": "`); an errored child contributes
`(0, 0)` to the counts, is still attached to its parent, and its
siblings are processed unaffected. -/
theorem C6_error_nodes_amended :
    (∀ (env : Env) (opts : Options) (fuel : Nat) (indent : String) (node : Node)
        (e : String) (vp : List String), node.err = some e →
      print env opts (fuel + 1) indent node vp =
        Except.ok ([(Dest.stdout, node.path ++ " [" ++ shortErr e ++ "]\n")],
          node, vp)) ∧
    (∀ (e a b : String) (l : List String),
      splitGo e ": " = a :: b :: l → shortErr e = b) ∧
    (∀ (e a : String), splitGo e ": " = [a] → shortErr e = e) ∧
    (∀ (env : Env) (opts : Options) (fuel : Nat) (node : Node) (vp : List String)
        (e : String), env.stat node.path = Except.error e →
      visit env opts (fuel + 1) node vp =
        some (node.setErr e, vpAdd env node.path vp, 0, 0)) ∧
    (∀ (env : Env) (opts : Options)
        (vc : Node → List String → Option (Node × List String × Int × Int))
        (pp : String) (pd : Int) (name : String) (rest : List String)
        (vp vp1 : List String) (c : Node) (d1 f1 : Int),
      (opts.All = true ∨ startsDot name = false) →
      vc (Node.mk none (env.joinPath pp name) (pd + 1) none []) vp =
        some (c, vp1, d1, f1) →
      c.err.isSome = true →
      visitLoop env opts vc pp pd (name :: rest) vp =
        (visitLoop env opts vc pp pd rest vp1).map
          (fun x => (c :: x.1, x.2.1, d1 + x.2.2.1, f1 + x.2.2.2))) := by
  refine ⟨?_, ?_, ?_, ?_, ?_⟩
  · intro env opts fuel indent node e vp herr
    cases node with
    | mk info p d e0 ns =>
      simp only [Node.err] at herr
      subst herr
      rfl
  · intro e a b l h
    unfold shortErr
    rw [h]
  · intro e a h
    unfold shortErr
    rw [h]
  · intro env opts fuel node vp e hstat
    simp only [visit, hstat]
  · intro env opts vc pp pd name rest vp vp1 c d1 f1 hname hc herr
    have hskip : (!opts.All && startsDot name) = false := by
      rcases hname with h | h <;> simp [h]
    simp only [visitLoop, hskip, Bool.false_eq_true, if_false, hc]
    have hkeep : keepChild env opts c name = true := by
      cases hce : c.err with
      | none => rw [hce] at herr; simp at herr
      | some msg =>
        cases c with
        | mk i2 p2 d2 e2 ns2 =>
          simp only [Node.err] at hce
          subst hce
          simp [keepChild, Node.err]
    cases hrest : visitLoop env opts vc pp pd rest vp1 with
    | none => simp
    | some x =>
      obtain ⟨chs, vp2, d2, f2⟩ := x
      simp [hkeep]

/-- C6 amended witness: the error line, the two short-error shapes, the
`(0, 0)` contribution and the attachment, at concrete inputs. -/
theorem C6_error_nodes_amended_witness :
    print cycEnv Options.zero 1 "" (Node.mk none "/p" 0 (some "a: b: c") []) [] =
      Except.ok ([(Dest.stdout, "/p [b]\n")],
        Node.mk none "/p" 0 (some "a: b: c") [], []) ∧
    shortErr "a: b: c" = "b" ∧
    shortErr "nosep" = "nosep" ∧
    visit cycEnv Options.zero 1 (Node.mk none "/zz" 0 none []) [] =
      some (Node.mk none "/zz" 0
        (some "open /zz: no such file or directory") [],
        vpAdd cycEnv "/zz" [], 0, 0) ∧
    visitLoop cycEnv Options.zero (visit cycEnv Options.zero 1) "/q" 0 ["zz"] [] =
      (visitLoop cycEnv Options.zero (visit cycEnv Options.zero 1) "/q" 0 []
          ["/q/zz"]).map
        (fun x => (Node.mk none "/q/zz" 1
          (some "open /q/zz: no such file or directory") [] :: x.1,
          x.2.1, 0 + x.2.2.1, 0 + x.2.2.2)) := by
  refine ⟨?_, ?_, ?_, ?_, ?_⟩
  · exact C6_error_nodes_amended.1 cycEnv Options.zero 0 "" _ "a: b: c" [] rfl
  · exact C6_error_nodes_amended.2.1 "a: b: c" "a" "b" ["c"] rfl
  · exact C6_error_nodes_amended.2.2.1 "nosep" "nosep" rfl
  · exact C6_error_nodes_amended.2.2.2.1 cycEnv Options.zero 0 _ [] _ rfl
  · exact C6_error_nodes_amended.2.2.2.2 cycEnv Options.zero
      (visit cycEnv Options.zero 1) "/q" 0 "zz" [] [] ["/q/zz"] _ 0 0
      (Or.inr rfl) rfl rfl

/-! ## Claim C3 — sort policy selection -/

/-- C3 counterexample, two parts.  First: with sorting enabled
(`NoSort` off) but no sort flag set, `Visit`'s sorting step applies NO
policy at all — the children keep their listing order
`[b-node, a-node]` although every one of the six policies orders
`a-node` strictly first — refuting "exactly one sort policy is
applied" for this configuration.  Second: the reverse flag does not
invert the chosen comparator's RESULT; it swaps its arguments
(`sort.Reverse`).  On the size-tied pair `nT1, nT2` the two readings
disagree pointwise, and inverting the result rejects both arrangements
of the tied pair (each has a pair ordered by the inverted comparator),
while the code's swapped comparator accepts both. -/
theorem C3_sort_policy_counterexample :
    (applySort Options.zero [nX, nY]).map Node.path = ["/d/b", "/d/a"] ∧
    applySortRel Options.zero [nX, nY] [nX, nY] ∧
    (goSortSort (byFuncLess ModSortF) [nX, nY]).map Node.path = ["/d/a", "/d/b"] ∧
    (goSortSort (byFuncLess CTimeSortF) [nX, nY]).map Node.path = ["/d/a", "/d/b"] ∧
    (goSortSort (byFuncLess DirSortF) [nX, nY]).map Node.path = ["/d/a", "/d/b"] ∧
    (goSortSort (byFuncLess VerSortF) [nX, nY]).map Node.path = ["/d/a", "/d/b"] ∧
    (goSortSort (byFuncLess SizeSortF) [nX, nY]).map Node.path = ["/d/a", "/d/b"] ∧
    (goSortSort (byFuncLess NameSortF) [nX, nY]).map Node.path = ["/d/a", "/d/b"] ∧
    (["/d/a", "/d/b"] : List String) ≠ ["/d/b", "/d/a"] ∧
    reverLess (byFuncLess SizeSortF) nT1 nT2 = false ∧
    reverLess (byFuncLess SizeSortF) nT2 nT1 = false ∧
    specInvLess (byFuncLess SizeSortF) nT1 nT2 = true ∧
    specInvLess (byFuncLess SizeSortF) nT2 nT1 = true ∧
    sortContract (reverLess (byFuncLess SizeSortF)) [nT1, nT2] [nT1, nT2] ∧
    sortContract (reverLess (byFuncLess SizeSortF)) [nT1, nT2] [nT2, nT1] :=
  ⟨rfl, by simp [applySortRel, selectSortFunc, Options.zero],
   rfl, rfl, rfl, rfl, rfl, rfl, by decide, rfl, rfl, rfl, rfl,
   ⟨List.Perm.refl _, by decide⟩,
   ⟨List.Perm.swap nT1 nT2 [], by decide⟩⟩

/-- C3 (amended): for every configuration, at most one sort policy is
applied to each directory's direct children — exactly one comparator is
selected as soon as some sort flag is set, by the fixed priority
mtime > change-time > directory-first > version > size > name, and the
children become a permutation of the listing with no pair out of order
under the selected comparator (the `sort.Sort` contract; stability is
not guaranteed, the code calls `sort.Sort` and not `sort.Stable`);
when no flag is set, or under no-sort, the children keep listing order;
and the reverse flag leaves the selection unchanged and applies the
chosen comparator with its arguments swapped (`sort.Reverse`), so its
acceptable child orders are exactly the reversals of the plain ones. -/
theorem C3_sort_policy_amended :
    (∀ opts : Options, opts.ModSort = true →
      selectSortFunc opts = some ModSortF) ∧
    (∀ opts : Options, opts.ModSort = false → opts.CTimeSort = true →
      selectSortFunc opts = some CTimeSortF) ∧
    (∀ opts : Options, opts.ModSort = false → opts.CTimeSort = false →
      opts.DirSort = true → selectSortFunc opts = some DirSortF) ∧
    (∀ opts : Options, opts.ModSort = false → opts.CTimeSort = false →
      opts.DirSort = false → opts.VerSort = true →
      selectSortFunc opts = some VerSortF) ∧
    (∀ opts : Options, opts.ModSort = false → opts.CTimeSort = false →
      opts.DirSort = false → opts.VerSort = false → opts.SizeSort = true →
      selectSortFunc opts = some SizeSortF) ∧
    (∀ opts : Options, opts.ModSort = false → opts.CTimeSort = false →
      opts.DirSort = false → opts.VerSort = false → opts.SizeSort = false →
      opts.NameSort = true → selectSortFunc opts = some NameSortF) ∧
    (∀ opts : Options, opts.ModSort = false → opts.CTimeSort = false →
      opts.DirSort = false → opts.VerSort = false → opts.SizeSort = false →
      opts.NameSort = false → selectSortFunc opts = none) ∧
    (∀ (opts : Options) (ns ns' : List Node), opts.NoSort = true →
      applySortRel opts ns ns' → ns' = ns) ∧
    (∀ (opts : Options) (ns ns' : List Node), selectSortFunc opts = none →
      applySortRel opts ns ns' → ns' = ns) ∧
    (∀ (opts : Options) (b : Bool),
      selectSortFunc (opts.setRever b) = selectSortFunc opts) ∧
    (∀ (opts : Options) (fn : SortFunc) (ns ns' : List Node),
      selectSortFunc opts = some fn → opts.NoSort = false →
      opts.ReverSort = false →
      (applySortRel opts ns ns' ↔
        ns'.Perm ns ∧ ns'.Pairwise (fun a b => byFuncLess fn b a = false))) ∧
    (∀ (opts : Options) (fn : SortFunc) (ns ns' : List Node),
      selectSortFunc opts = some fn → opts.NoSort = false →
      opts.ReverSort = true →
      (applySortRel opts ns ns' ↔
        ns'.Perm ns ∧ ns'.Pairwise (fun a b => byFuncLess fn a b = false))) ∧
    (∀ (opts : Options) (fn : SortFunc) (ns ns' : List Node),
      selectSortFunc opts = some fn → opts.NoSort = false →
      opts.ReverSort = true →
      (applySortRel opts ns ns' ↔
        ns'.reverse.Perm ns ∧
          ns'.reverse.Pairwise (fun a b => byFuncLess fn b a = false))) := by
  refine ⟨?_, ?_, ?_, ?_, ?_, ?_, ?_, ?_, ?_, ?_, ?_, ?_, ?_⟩
  · intro opts h
    simp [selectSortFunc, h]
  · intro opts h1 h2
    simp [selectSortFunc, h1, h2]
  · intro opts h1 h2 h3
    simp [selectSortFunc, h1, h2, h3]
  · intro opts h1 h2 h3 h4
    simp [selectSortFunc, h1, h2, h3, h4]
  · intro opts h1 h2 h3 h4 h5
    simp [selectSortFunc, h1, h2, h3, h4, h5]
  · intro opts h1 h2 h3 h4 h5 h6
    simp [selectSortFunc, h1, h2, h3, h4, h5, h6]
  · intro opts h1 h2 h3 h4 h5 h6
    simp [selectSortFunc, h1, h2, h3, h4, h5, h6]
  · intro opts ns ns' h hrel
    simp only [applySortRel, h, if_true] at hrel
    exact hrel
  · intro opts ns ns' hsel hrel
    unfold applySortRel at hrel
    cases hns : opts.NoSort with
    | true =>
      simp only [hns, if_true] at hrel
      exact hrel
    | false =>
      simp only [hns, Bool.false_eq_true, if_false, hsel] at hrel
      exact hrel
  · intro opts b
    rfl
  · intro opts fn ns ns' hsel hns hrev
    unfold applySortRel
    simp only [hns, Bool.false_eq_true, if_false, hsel, hrev]
    exact Iff.rfl
  · intro opts fn ns ns' hsel hns hrev
    unfold applySortRel
    simp only [hns, Bool.false_eq_true, if_false, hsel, hrev, if_true]
    exact Iff.rfl
  · intro opts fn ns ns' hsel hns hrev
    unfold applySortRel
    simp only [hns, Bool.false_eq_true, if_false, hsel, hrev, if_true]
    constructor
    · rintro ⟨hp, hq⟩
      refine ⟨(ns'.reverse_perm).trans hp, ?_⟩
      rw [List.pairwise_reverse]
      exact hq
    · rintro ⟨hp, hq⟩
      refine ⟨(ns'.reverse_perm.symm).trans hp, ?_⟩
      rw [List.pairwise_reverse] at hq
      exact hq

/-- C3 amended witness: priority at configurations with several flags
set, suppression by `NoSort`, the no-flag no-op, the `ReverSort`
invariance of selection, and concrete contract outputs — size-sorted
`[nY, nX]`, reverse-size keeping the tied order, and a reversed
modification-time order recovered from the plain contract on the
reversed list. -/
theorem C3_sort_policy_amended_witness :
    selectSortFunc (mkSortOpts false false true false false false true false) =
      some ModSortF ∧
    selectSortFunc (mkSortOpts false true false false true true false false) =
      some VerSortF ∧
    (applySortRel (mkSortOpts true false false false false false false false)
      [nX, nY] [nX, nY] ∧ ([nX, nY] : List Node) = [nX, nY]) ∧
    (applySortRel Options.zero [nX, nY] [nX, nY] ∧
      ([nX, nY] : List Node) = [nX, nY]) ∧
    selectSortFunc (Options.zero.setRever true) = selectSortFunc Options.zero ∧
    applySortRel (mkSortOpts false false false false false true false false)
      [nX, nY] [nY, nX] ∧
    applySortRel (mkSortOpts false false false false false true false true)
      [nT1, nT2] [nT1, nT2] ∧
    applySortRel (mkSortOpts false false true false false false false true)
      [nX, nY] [nX, nY] := by
  have hns : applySortRel
      (mkSortOpts true false false false false false false false)
      [nX, nY] [nX, nY] := by
    simp [applySortRel, mkSortOpts]
  have hnf : applySortRel Options.zero [nX, nY] [nX, nY] := by
    simp [applySortRel, selectSortFunc, Options.zero]
  refine ⟨?_, ?_, ?_, ?_, ?_, ?_, ?_, ?_⟩
  · exact C3_sort_policy_amended.1 _ rfl
  · exact C3_sort_policy_amended.2.2.2.1 _ rfl rfl rfl rfl
  · exact ⟨hns, C3_sort_policy_amended.2.2.2.2.2.2.2.1 _ [nX, nY] [nX, nY]
      rfl hns⟩
  · exact ⟨hnf, C3_sort_policy_amended.2.2.2.2.2.2.2.2.1 Options.zero
      [nX, nY] [nX, nY] rfl hnf⟩
  · exact C3_sort_policy_amended.2.2.2.2.2.2.2.2.2.1 Options.zero true
  · exact (C3_sort_policy_amended.2.2.2.2.2.2.2.2.2.2.1
      (mkSortOpts false false false false false true false false) SizeSortF
      [nX, nY] [nY, nX] rfl rfl rfl).mpr
      ⟨List.Perm.swap nX nY [], by decide⟩
  · exact (C3_sort_policy_amended.2.2.2.2.2.2.2.2.2.2.2.1
      (mkSortOpts false false false false false true false true) SizeSortF
      [nT1, nT2] [nT1, nT2] rfl rfl rfl).mpr
      ⟨List.Perm.refl _, by decide⟩
  · exact (C3_sort_policy_amended.2.2.2.2.2.2.2.2.2.2.2.2
      (mkSortOpts false false true false false false false true) ModSortF
      [nX, nY] [nX, nY] rfl rfl rfl).mpr
      ⟨List.Perm.swap nX nY [], by decide⟩

/-! ## Claim C4 — content filters during `Visit` -/

/-- C4: the content filter (directories-only, include pattern, exclude
pattern) is consulted exactly for successfully statted non-directory
children; directories-only discards such a child entirely; the include
pattern keeps matching names and the exclude pattern drops matching
names through the compiled (case-flag-prefixed) expressions; a pattern
that fails to compile never rejects; directories and errored children
are always attached; a dropped child is neither attached nor counted. -/
theorem C4_content_filters :
    (∀ (env : Env) (opts : Options) (c : Node) (name : String),
      c.err = none → c.IsDir = false →
      keepChild env opts c name = keepFile env opts name) ∧
    (∀ (env : Env) (opts : Options) (c : Node) (name : String),
      c.IsDir = true → keepChild env opts c name = true) ∧
    (∀ (env : Env) (opts : Options) (c : Node) (name : String),
      c.err.isSome = true → keepChild env opts c name = true) ∧
    (∀ (env : Env) (opts : Options) (name : String),
      opts.DirsOnly = true → keepFile env opts name = false) ∧
    (∀ (env : Env) (opts : Options) (name : String), opts.DirsOnly = false →
      keepFile env opts name =
        (patternKeeps env opts name && !ipatternDrops env opts name)) ∧
    (∀ (env : Env) (opts : Options) (name : String) (m : String → Bool),
      opts.Pattern ≠ "" →
      env.compileRegex (icPre opts ++ opts.Pattern) = some m →
      patternKeeps env opts name = m name) ∧
    (∀ (env : Env) (opts : Options) (name : String) (m : String → Bool),
      opts.IPattern ≠ "" →
      env.compileRegex (icPre opts ++ opts.IPattern) = some m →
      ipatternDrops env opts name = m name) ∧
    (∀ opts : Options, opts.IgnoreCase = true → icPre opts = "(?i)") ∧
    (∀ (env : Env) (opts : Options) (name : String),
      env.compileRegex (icPre opts ++ opts.Pattern) = none →
      patternKeeps env opts name = true) ∧
    (∀ (env : Env) (opts : Options) (name : String),
      env.compileRegex (icPre opts ++ opts.IPattern) = none →
      ipatternDrops env opts name = false) ∧
    (∀ (env : Env) (opts : Options)
        (vc : Node → List String → Option (Node × List String × Int × Int))
        (pp : String) (pd : Int) (name : String) (rest : List String)
        (vp vp1 : List String) (c : Node) (d1 f1 : Int),
      (opts.All = true ∨ startsDot name = false) →
      vc (Node.mk none (env.joinPath pp name) (pd + 1) none []) vp =
        some (c, vp1, d1, f1) →
      (keepChild env opts c name = true →
        visitLoop env opts vc pp pd (name :: rest) vp =
          (visitLoop env opts vc pp pd rest vp1).map
            (fun x => (c :: x.1, x.2.1, d1 + x.2.2.1, f1 + x.2.2.2))) ∧
      (keepChild env opts c name = false →
        visitLoop env opts vc pp pd (name :: rest) vp =
          visitLoop env opts vc pp pd rest vp1)) := by
  refine ⟨?_, ?_, ?_, ?_, ?_, ?_, ?_, ?_, ?_, ?_, ?_⟩
  · intro env opts c name h1 h2
    cases c with
    | mk i p d e ns =>
      simp only [Node.err] at h1
      subst h1
      simp [keepChild, h2]
  · intro env opts c name h
    simp [keepChild, h]
  · intro env opts c name h
    cases c with
    | mk i p d e ns =>
      simp only [Node.err] at h
      cases e with
      | none => simp at h
      | some msg => simp [keepChild, Node.err]
  · intro env opts name h
    simp [keepFile, h]
  · intro env opts name h
    simp [keepFile, h]
  · intro env opts name m hne hc
    simp [patternKeeps, hne, hc]
  · intro env opts name m hne hc
    simp [ipatternDrops, hne, hc]
  · intro opts h
    simp [icPre, h]
  · intro env opts name hc
    unfold patternKeeps
    rw [hc]
    simp
  · intro env opts name hc
    unfold ipatternDrops
    rw [hc]
    simp
  · intro env opts vc pp pd name rest vp vp1 c d1 f1 hname hc
    have hskip : (!opts.All && startsDot name) = false := by
      rcases hname with h | h <;> simp [h]
    constructor
    · intro hkeep
      simp only [visitLoop, hskip, Bool.false_eq_true, if_false, hc]
      cases hrest : visitLoop env opts vc pp pd rest vp1 with
      | none => simp
      | some x =>
        obtain ⟨chs, vp2, d2, f2⟩ := x
        simp [hkeep]
    · intro hkeep
      simp only [visitLoop, hskip, Bool.false_eq_true, if_false, hc]
      cases hrest : visitLoop env opts vc pp pd rest vp1 with
      | none => simp
      | some x =>
        obtain ⟨chs, vp2, d2, f2⟩ := x
        simp [hkeep]

/-- C4 witness: every component applied at concrete inputs — the
filter applying to a plain file, the dir/error exemptions, the
directories-only discard, the two pattern modes, the case-insensitive
prefix, compile-failure tolerance, and the loop keeping/dropping. -/
theorem C4_content_filters_witness :
    keepChild patEnv (mkFilterOpts false false "g" "") nX "b" =
      keepFile patEnv (mkFilterOpts false false "g" "") "b" ∧
    keepChild patEnv Options.zero nY "a" = true ∧
    keepChild patEnv Options.zero
      (Node.mk none "/e" 1 (some "open /e: permission denied") []) "e" = true ∧
    keepFile patEnv (mkFilterOpts true false "" "") "f" = false ∧
    keepFile patEnv (mkFilterOpts false false "g" "") "main.go" =
      (patternKeeps patEnv (mkFilterOpts false false "g" "") "main.go" &&
       !ipatternDrops patEnv (mkFilterOpts false false "g" "") "main.go") ∧
    patternKeeps patEnv (mkFilterOpts false false "g" "") "main.go" =
      (fun n => n == "main.go") "main.go" ∧
    ipatternDrops patEnv (mkFilterOpts false false "" "g") "main.go" =
      (fun n => n == "main.go") "main.go" ∧
    icPre (mkFilterOpts false true "" "") = "(?i)" ∧
    patternKeeps patEnv (mkFilterOpts false false "zzz" "") "main.py" = true ∧
    ipatternDrops patEnv (mkFilterOpts false false "" "zzz") "main.py" = false ∧
    visitLoop cycEnv Options.zero (visit cycEnv Options.zero 1) "/a" 0 ["l"] [] =
      (visitLoop cycEnv Options.zero (visit cycEnv Options.zero 1) "/a" 0 []
          ["/a/l"]).map
        (fun x => (Node.mk (some linkFi) "/a/l" 1 none [] :: x.1,
          x.2.1, 0 + x.2.2.1, 1 + x.2.2.2)) ∧
    visitLoop cycEnv (mkFilterOpts true false "" "")
        (visit cycEnv (mkFilterOpts true false "" "") 1) "/a" 0 ["l"] [] =
      visitLoop cycEnv (mkFilterOpts true false "" "")
        (visit cycEnv (mkFilterOpts true false "" "") 1) "/a" 0 [] ["/a/l"] := by
  refine ⟨?_, ?_, ?_, ?_, ?_, ?_, ?_, ?_, ?_, ?_, ?_, ?_⟩
  · exact C4_content_filters.1 patEnv _ nX "b" rfl rfl
  · exact C4_content_filters.2.1 patEnv Options.zero nY "a" rfl
  · exact C4_content_filters.2.2.1 patEnv Options.zero _ "e" rfl
  · exact C4_content_filters.2.2.2.1 patEnv _ "f" rfl
  · exact C4_content_filters.2.2.2.2.1 patEnv _ "main.go" rfl
  · exact C4_content_filters.2.2.2.2.2.1 patEnv (mkFilterOpts false false "g" "")
      "main.go" (fun n => n == "main.go") (by decide) rfl
  · exact C4_content_filters.2.2.2.2.2.2.1 patEnv (mkFilterOpts false false "" "g")
      "main.go" (fun n => n == "main.go") (by decide) rfl
  · exact C4_content_filters.2.2.2.2.2.2.2.1 _ rfl
  · exact C4_content_filters.2.2.2.2.2.2.2.2.1 patEnv _ "main.py" rfl
  · exact C4_content_filters.2.2.2.2.2.2.2.2.2.1 patEnv _ "main.py" rfl
  · exact (C4_content_filters.2.2.2.2.2.2.2.2.2.2 cycEnv Options.zero
      (visit cycEnv Options.zero 1) "/a" 0 "l" [] [] ["/a/l"] _ 0 1
      (Or.inr rfl) rfl).1 rfl
  · exact (C4_content_filters.2.2.2.2.2.2.2.2.2.2 cycEnv
      (mkFilterOpts true false "" "")
      (visit cycEnv (mkFilterOpts true false "" "") 1) "/a" 0 "l" [] [] ["/a/l"]
      _ 0 1 (Or.inr rfl) rfl).2 rfl

/-! ## Claim C8 — node immutability during rendering -/

/-- C8 counterexample: rendering with `FollowLink` MUTATES the tree —
the symlink node `/a/l` has no children after `Visit`, but `print`
replaces its children with those of the freshly traversed target `/b`
(node.go line 309), so the tree after `Print` differs from the tree
before. -/
theorem C8_print_mutates_counterexample :
    visit adoptEnv optsFollow 5 (Node.mk none "/a" 0 none []) [] =
      some (adoptTree, ["/a/l", "/a"], 1, 1) ∧
    printTop adoptEnv optsFollow 5 adoptTree ["/a/l", "/a"] =
      Except.ok ([(Dest.outFile, "/a\n"), (Dest.outFile, "└── "),
        (Dest.outFile, "l -> /b\n"), (Dest.outFile, "    └── "),
        (Dest.outFile, "f\n")], adoptTreeAfter, ["/b/f", "/b", "/a/l", "/a"]) ∧
    (adoptTreeAfter.nodes.headD default).nodes.length = 1 ∧
    (adoptTree.nodes.headD default).nodes.length = 0 :=
  ⟨rfl, rfl, rfl, rfl⟩

/-- With `FollowLink` disabled the symlink step never touches the
node's children or the visited-path map. -/
theorem symlinkStep_nofollow (env : Env) (opts : Options)
    (vf : Node → List String → Option (Node × List String × Int × Int))
    (node : Node) (fi : FileInfo) (nm : String) (vp : List String)
    (h : opts.FollowLink = false) :
    ∃ nm', symlinkStep env opts vf node fi nm vp =
      Except.ok (nm', node.nodes, vp) := by
  unfold symlinkStep
  cases hsym : fi.Mode.symlink with
  | false => exact ⟨nm, by simp [hsym]⟩
  | true =>
    simp only [hsym, h, eq_self_iff_true, if_true, Bool.false_eq_true, if_false]
    exact ⟨_, rfl⟩

/-- Children printed through a node-preserving renderer are returned
unchanged, as is the visited-path map. -/
theorem printLoop_fixes (opts : Options)
    (recP : String → Node → List String →
      Except Stop (List Write × Node × List String))
    (hrec : ∀ indent n vp w n' vp',
      recP indent n vp = Except.ok (w, n', vp') → n' = n ∧ vp' = vp) :
    ∀ (ns : List Node) (indent : String) (vp : List String) (w : List Write)
      (ns' : List Node) (vp' : List String),
      printLoop opts recP indent ns vp = Except.ok (w, ns', vp') →
      ns' = ns ∧ vp' = vp := by
  intro ns
  induction ns with
  | nil =>
    intro indent vp w ns' vp' h
    simp only [printLoop, Except.ok.injEq, Prod.mk.injEq] at h
    exact ⟨h.2.1.symm, h.2.2.symm⟩
  | cons n rest ihr =>
    intro indent vp w ns' vp' h
    simp only [printLoop] at h
    split at h
    · exact absurd h (by simp)
    · rename_i w1 n1 vp1 heq1
      split at h
      · exact absurd h (by simp)
      · rename_i w2 rest2 vp2 heq2
        simp only [Except.ok.injEq, Prod.mk.injEq] at h
        obtain ⟨h1, h2⟩ := hrec _ _ _ _ _ _ heq1
        obtain ⟨h3, h4⟩ := ihr _ _ _ _ _ heq2
        subst h1 h2 h3 h4
        exact ⟨h.2.1.symm, h.2.2.symm⟩

mutual

/-- `frameOK` is reflexive: a node is its own rendering frame. -/
theorem frameOK_refl (env : Env) (opts : Options) :
    ∀ n : Node, frameOK env opts n n
  | Node.mk i p d e ns => by
    simp only [frameOK]
    exact ⟨rfl, rfl, rfl, rfl, Or.inl (frameOKList_refl env opts ns)⟩

/-- `frameOKList` is reflexive. -/
theorem frameOKList_refl (env : Env) (opts : Options) :
    ∀ ns : List Node, frameOKList env opts ns ns
  | [] => by simp only [frameOKList]
  | n :: rest => by
    simp only [frameOKList]
    exact ⟨n, rest, rfl, frameOK_refl env opts n,
      frameOKList_refl env opts rest⟩

end

/-- Where the children handed to `print`'s child loop come from: either
the node's own children (visited-path map untouched), or — under
`FollowLink`, for a symlink — the children of a fresh traversal of the
resolved target. -/
theorem symlinkStep_frame (env : Env) (opts : Options)
    (vf : Node → List String → Option (Node × List String × Int × Int))
    (node : Node) (fi : FileInfo) (nm : String) (vp : List String)
    (nm2 : String) (ns2 : List Node) (vp2 : List String)
    (h : symlinkStep env opts vf node fi nm vp = Except.ok (nm2, ns2, vp2)) :
    ns2 = node.nodes ∨
      (opts.FollowLink = true ∧ fi.Mode.symlink = true ∧
        ∃ (f : FileInfo) (inf : Node) (vp1 : List String) (dd ff : Int),
          targetInfo env node = some f ∧
          vf (Node.mk (some f) (targetPath env node) 0 none []) vp =
            some (inf, vp1, dd, ff) ∧
          ns2 = inf.nodes ∧ vp2 = vp1) := by
  unfold symlinkStep at h
  cases hsym : fi.Mode.symlink with
  | false =>
    simp only [hsym, Bool.false_eq_true, if_false, Except.ok.injEq,
      Prod.mk.injEq] at h
    exact Or.inl h.2.1.symm
  | true =>
    simp only [hsym, eq_self_iff_true, if_true] at h
    cases hfl : opts.FollowLink with
    | false =>
      simp only [hfl, Bool.false_eq_true, if_false, Except.ok.injEq,
        Prod.mk.injEq] at h
      exact Or.inl h.2.1.symm
    | true =>
      simp only [hfl, eq_self_iff_true, if_true] at h
      cases habs : env.abs (targetPath env node) with
      | error msg =>
        simp only [habs, Except.ok.injEq, Prod.mk.injEq] at h
        exact Or.inl h.2.1.symm
      | ok pth =>
        simp only [habs] at h
        cases hti : targetInfo env node with
        | none =>
          simp only [hti, Except.ok.injEq, Prod.mk.injEq] at h
          exact Or.inl h.2.1.symm
        | some f =>
          simp only [hti] at h
          cases hdir : f.IsDir with
          | false =>
            simp only [hdir, Bool.false_eq_true, if_false, Except.ok.injEq,
              Prod.mk.injEq] at h
            exact Or.inl h.2.1.symm
          | true =>
            simp only [hdir, eq_self_iff_true, if_true] at h
            by_cases hmem : env.clean pth ∈ vp
            · rw [if_pos hmem] at h
              simp only [Except.ok.injEq, Prod.mk.injEq] at h
              exact Or.inl h.2.1.symm
            · rw [if_neg hmem] at h
              cases hvf : vf (Node.mk (some f) (targetPath env node) 0
                  none []) vp with
              | none =>
                rw [hvf] at h
                exact absurd h (by simp)
              | some r =>
                obtain ⟨inf, vpx, dd, ff⟩ := r
                rw [hvf] at h
                simp only [Except.ok.injEq, Prod.mk.injEq] at h
                exact Or.inr ⟨rfl, rfl, f, inf, vpx, dd, ff, rfl, hvf,
                  h.2.1.symm, h.2.2.symm⟩

/-- Children printed through a frame-respecting renderer satisfy the
pointwise frame relation. -/
theorem printLoop_frame (env : Env) (opts : Options)
    (recP : String → Node → List String →
      Except Stop (List Write × Node × List String))
    (hrec : ∀ indent n vp w n' vp',
      recP indent n vp = Except.ok (w, n', vp') → frameOK env opts n n') :
    ∀ (ns : List Node) (indent : String) (vp : List String) (w : List Write)
      (ns' : List Node) (vp' : List String),
      printLoop opts recP indent ns vp = Except.ok (w, ns', vp') →
      frameOKList env opts ns ns' := by
  intro ns
  induction ns with
  | nil =>
    intro indent vp w ns' vp' h
    simp only [printLoop, Except.ok.injEq, Prod.mk.injEq] at h
    rw [← h.2.1]
    simp only [frameOKList]
  | cons n rest ihr =>
    intro indent vp w ns' vp' h
    simp only [printLoop] at h
    split at h
    · exact absurd h (by simp)
    · rename_i w1 n1 vp1 heq1
      split at h
      · exact absurd h (by simp)
      · rename_i w2 rest2 vp2 heq2
        simp only [Except.ok.injEq, Prod.mk.injEq] at h
        rw [← h.2.1]
        simp only [frameOKList]
        exact ⟨n, rest, rfl, hrec _ _ _ _ _ _ heq1, ihr _ _ _ _ _ heq2⟩

/-- C8 (amended): nodes are mutated during traversal (`Visit` sets the
metadata and appends-then-sorts children) and, during rendering, only
by the symlink-follow adoption: with `FollowLink` disabled `print`
returns every node — and the visited-path map — unchanged, and for
every configuration each rendered node keeps its metadata, path, depth
and error, its children being the recursively rendered original
children, except that a followed symlink's children may be replaced by
those of a fresh traversal of its resolved target (node.go line 309). -/
theorem C8_print_immutable_amended :
    (∀ (fuel : Nat) (env : Env) (opts : Options) (indent : String)
        (node : Node) (vp : List String) (w : List Write) (n' : Node)
        (vp' : List String),
      opts.FollowLink = false →
      print env opts fuel indent node vp = Except.ok (w, n', vp') →
      n' = node ∧ vp' = vp) ∧
    (∀ (fuel : Nat) (env : Env) (opts : Options) (indent : String)
        (node : Node) (vp : List String) (w : List Write) (n' : Node)
        (vp' : List String),
      print env opts fuel indent node vp = Except.ok (w, n', vp') →
      frameOK env opts node n') := by
  constructor
  · intro fuel
    induction fuel with
      | zero =>
        intro env opts indent node vp w n' vp' hf h
        simp [print] at h
      | succ fuel ih =>
        intro env opts indent node vp w n' vp' hf h
        cases node with
        | mk i p d e ns =>
          cases e with
          | some msg =>
            simp only [print, Node.err, Except.ok.injEq, Prod.mk.injEq] at h
            exact ⟨h.2.1.symm, h.2.2.symm⟩
          | none =>
            cases i with
            | none =>
              simp only [print, Node.err, Node.info] at h
              exact absurd h (by simp)
            | some fi =>
              simp only [print, Node.err, Node.info] at h
              split at h
              · exact absurd h (by simp)
              · rename_i pw heqp
                split at h
                · exact absurd h (by simp)
                · rename_i nm ns2 vp2 heqs
                  have hfact : ns2 = ns ∧ vp2 = vp := by
                    unfold symlinkStep at heqs
                    simp only [hf, Bool.false_eq_true, if_false] at heqs
                    split at heqs
                    · simp only [Except.ok.injEq, Prod.mk.injEq, Node.nodes] at heqs
                      exact ⟨heqs.2.1.symm, heqs.2.2.symm⟩
                    · simp only [Except.ok.injEq, Prod.mk.injEq, Node.nodes] at heqs
                      exact ⟨heqs.2.1.symm, heqs.2.2.symm⟩
                  obtain ⟨hns2, hvp2⟩ := hfact
                  subst hns2 hvp2
                  split at h
                  · exact absurd h (by simp)
                  · rename_i cw ns3 vp3 heql
                    obtain ⟨h5, h6⟩ := printLoop_fixes opts (print env opts fuel)
                      (fun indent n vp w n' vp' hh =>
                        ih env opts indent n vp w n' vp' hf hh) _ _ _ _ _ _ heql
                    subst h5 h6
                    simp only [Except.ok.injEq, Prod.mk.injEq] at h
                    exact ⟨h.2.1.symm, h.2.2.symm⟩
  · intro fuel
    induction fuel with
    | zero =>
      intro env opts indent node vp w n' vp' h
      simp [print] at h
    | succ fuel ih =>
      intro env opts indent node vp w n' vp' h
      cases node with
      | mk i p d e ns =>
        cases e with
        | some msg =>
          simp only [print, Node.err, Except.ok.injEq, Prod.mk.injEq] at h
          rw [← h.2.1]
          exact frameOK_refl env opts _
        | none =>
          cases i with
          | none =>
            simp only [print, Node.err, Node.info] at h
            exact absurd h (by simp)
          | some fi =>
            simp only [print, Node.err, Node.info, Node.path, Node.depth,
              Node.nodes] at h
            split at h
            · exact absurd h (by simp)
            · rename_i pw heqp
              split at h
              · exact absurd h (by simp)
              · rename_i nm ns2 vp2 heqs
                split at h
                · exact absurd h (by simp)
                · rename_i cw ns3 vp3 heql
                  simp only [Except.ok.injEq, Prod.mk.injEq] at h
                  rw [← h.2.1]
                  have hlist : frameOKList env opts ns2 ns3 :=
                    printLoop_frame env opts (print env opts fuel)
                      (fun a b c dd ee ff hh => ih env opts a b c dd ee ff hh)
                      _ _ _ _ _ _ heql
                  have hcases := symlinkStep_frame env opts
                    (visit env opts fuel) (Node.mk (some fi) p d none ns) fi
                    (displayName env opts (Node.mk (some fi) p d none ns) fi)
                    vp nm ns2 vp2 heqs
                  simp only [frameOK]
                  refine ⟨rfl, rfl, rfl, rfl, ?_⟩
                  cases hcases with
                  | inl hl =>
                    rw [hl] at hlist
                    exact Or.inl hlist
                  | inr hr =>
                    obtain ⟨hfl, hsym, f, inf, vp1, dd, ff, hti, hvf, hns2,
                      hvp2x⟩ := hr
                    refine Or.inr ⟨hfl, ?_, f, fuel, vp, vp1, inf, dd, ff,
                      hti, hvf, ?_⟩
                    · simpa [Node.fi] using hsym
                    · rw [← hns2]
                      exact hlist

/-! ## Claim C9 — color classifier -/

/-- C9: extension matching is case-insensitive (the name enters only
through the lower-cased extension); with no extension match, a broken
symlink returns the error-link styling immediately — which is not the
common bold wrap — and sockets, pipes, block and character devices
return immediately with their own stylings; extension matches,
directories and valid symlinks all receive the common bold wrap. -/
theorem C9_ansi_color :
    (∀ (env : Env) (nm1 nm2 : String) (sz : Int) (dir : Bool) (m : FMode)
        (mt : Int) (sys : Option StatT) (p : String) (dp : Int)
        (er : Option String) (ns : List Node) (s : String),
      toLowerGo (goExt nm1) = toLowerGo (goExt nm2) →
      ansiColor env (Node.mk (some ⟨nm1, sz, dir, m, mt, sys⟩) p dp er ns) s =
        ansiColor env (Node.mk (some ⟨nm2, sz, dir, m, mt, sys⟩) p dp er ns) s) ∧
    (∀ (env : Env) (n : Node) (s msg : String),
      execExts.contains (extKey n) = false →
      archiveExts.contains (extKey n) = false →
      mediaExts.contains (extKey n) = false →
      n.Mode.symlink = true →
      env.evalSymlinks n.path = Except.error msg →
      ansiColor env n s = orphanStyle s) ∧
    (∀ s : String,
      orphanStyle s ≠ wrapBold Cyan s ∧ orphanStyle s ≠ wrapBold Blue s) ∧
    (∀ (env : Env) (n : Node) (s : String),
      execExts.contains (extKey n) = false →
      archiveExts.contains (extKey n) = false →
      mediaExts.contains (extKey n) = false →
      (n.Mode.symlink = false ∨ ∃ q, env.evalSymlinks n.path = Except.ok q) →
      n.Mode.socket = true →
      ansiColor env n s = socketStyle s) ∧
    (∀ (env : Env) (n : Node) (s : String),
      execExts.contains (extKey n) = false →
      archiveExts.contains (extKey n) = false →
      mediaExts.contains (extKey n) = false →
      (n.Mode.symlink = false ∨ ∃ q, env.evalSymlinks n.path = Except.ok q) →
      n.Mode.socket = false → n.Mode.namedPipe = true →
      ansiColor env n s = fifoStyle s) ∧
    (∀ (env : Env) (n : Node) (s : String),
      execExts.contains (extKey n) = false →
      archiveExts.contains (extKey n) = false →
      mediaExts.contains (extKey n) = false →
      (n.Mode.symlink = false ∨ ∃ q, env.evalSymlinks n.path = Except.ok q) →
      n.Mode.socket = false → n.Mode.namedPipe = false →
      n.Mode.device = true →
      ansiColor env n s = devStyle s) ∧
    (∀ (env : Env) (n : Node) (s : String),
      execExts.contains (extKey n) = false →
      archiveExts.contains (extKey n) = false →
      mediaExts.contains (extKey n) = false →
      (n.Mode.symlink = false ∨ ∃ q, env.evalSymlinks n.path = Except.ok q) →
      n.Mode.socket = false → n.Mode.namedPipe = false →
      n.Mode.device = false → n.Mode.charDevice = true →
      ansiColor env n s = devStyle s) ∧
    (∀ (env : Env) (n : Node) (s : String),
      execExts.contains (extKey n) = true →
      ansiColor env n s = wrapBold Green s) ∧
    (∀ (env : Env) (n : Node) (s : String),
      execExts.contains (extKey n) = false →
      archiveExts.contains (extKey n) = true →
      ansiColor env n s = wrapBold Red s) ∧
    (∀ (env : Env) (n : Node) (s : String),
      execExts.contains (extKey n) = false →
      archiveExts.contains (extKey n) = false →
      mediaExts.contains (extKey n) = true →
      ansiColor env n s = wrapBold Magenta s) ∧
    (∀ (env : Env) (n : Node) (s q : String),
      execExts.contains (extKey n) = false →
      archiveExts.contains (extKey n) = false →
      mediaExts.contains (extKey n) = false →
      n.Mode.symlink = true → env.evalSymlinks n.path = Except.ok q →
      n.Mode.socket = false → n.Mode.namedPipe = false →
      n.Mode.device = false → n.Mode.charDevice = false →
      ansiColor env n s = wrapBold Cyan s) ∧
    (∀ (env : Env) (n : Node) (s : String),
      execExts.contains (extKey n) = false →
      archiveExts.contains (extKey n) = false →
      mediaExts.contains (extKey n) = false →
      n.Mode.symlink = false → n.Mode.socket = false →
      n.Mode.namedPipe = false → n.Mode.device = false →
      n.Mode.charDevice = false → n.IsDir = true →
      ansiColor env n s = wrapBold Blue s) := by
  refine ⟨?_, ?_, ?_, ?_, ?_, ?_, ?_, ?_, ?_, ?_, ?_, ?_⟩
  · intro env nm1 nm2 sz dir m mt sys p dp er ns s h
    simp only [ansiColor, Node.Name, Node.fi, Node.info, Option.getD,
      Node.IsDir, Node.Mode, Node.path]
    rw [h]
  · intro env n s msg h1 h2 h3 hsym heval
    simp only [ansiColor, extKey] at h1 h2 h3 ⊢
    rw [h1, h2, h3, hsym, heval]
    rfl
  · intro s
    constructor
    · intro h
      have hl := congrArg String.length h
      simp only [orphanStyle, wrapBold, Escape, Bold, Red, Cyan, ResetC,
        String.length_append] at hl
      have e1 : ("\x1b" : String).length = 1 := by decide
      have e2 : ("[40;" : String).length = 4 := by decide
      have e3 : (toString (1 : Int)).length = 1 := by decide
      have e4 : (";" : String).length = 1 := by decide
      have e5 : (toString (31 : Int)).length = 2 := by decide
      have e6 : ("m" : String).length = 1 := by decide
      have e7 : ("[" : String).length = 1 := by decide
      have e8 : (toString (0 : Int)).length = 1 := by decide
      have e9 : (toString (36 : Int)).length = 2 := by decide
      rw [e1, e2, e3, e4, e5, e6, e7, e8, e9] at hl
      omega
    · intro h
      have hl := congrArg String.length h
      simp only [orphanStyle, wrapBold, Escape, Bold, Red, Blue, ResetC,
        String.length_append] at hl
      have e1 : ("\x1b" : String).length = 1 := by decide
      have e2 : ("[40;" : String).length = 4 := by decide
      have e3 : (toString (1 : Int)).length = 1 := by decide
      have e4 : (";" : String).length = 1 := by decide
      have e5 : (toString (31 : Int)).length = 2 := by decide
      have e6 : ("m" : String).length = 1 := by decide
      have e7 : ("[" : String).length = 1 := by decide
      have e8 : (toString (0 : Int)).length = 1 := by decide
      have e9 : (toString (34 : Int)).length = 2 := by decide
      rw [e1, e2, e3, e4, e5, e6, e7, e8, e9] at hl
      omega
  · intro env n s h1 h2 h3 hsym hsock
    simp only [ansiColor, extKey] at h1 h2 h3 ⊢
    rcases hsym with hs | ⟨q, hq⟩
    · rw [h1, h2, h3, hs]
      unfold ansiAfterLink
      rw [hsock]
      rfl
    · rw [h1, h2, h3, hq]
      unfold ansiAfterLink
      rw [hsock]
      cases hsym2 : n.Mode.symlink <;> rfl
  · intro env n s h1 h2 h3 hsym hsock hpipe
    simp only [ansiColor, extKey] at h1 h2 h3 ⊢
    rcases hsym with hs | ⟨q, hq⟩
    · rw [h1, h2, h3, hs]
      unfold ansiAfterLink
      rw [hsock, hpipe]
      rfl
    · rw [h1, h2, h3, hq]
      unfold ansiAfterLink
      rw [hsock, hpipe]
      cases hsym2 : n.Mode.symlink <;> rfl
  · intro env n s h1 h2 h3 hsym hsock hpipe hdev
    simp only [ansiColor, extKey] at h1 h2 h3 ⊢
    rcases hsym with hs | ⟨q, hq⟩
    · rw [h1, h2, h3, hs]
      unfold ansiAfterLink
      rw [hsock, hpipe, hdev]
      rfl
    · rw [h1, h2, h3, hq]
      unfold ansiAfterLink
      rw [hsock, hpipe, hdev]
      cases hsym2 : n.Mode.symlink <;> rfl
  · intro env n s h1 h2 h3 hsym hsock hpipe hdev hchr
    simp only [ansiColor, extKey] at h1 h2 h3 ⊢
    rcases hsym with hs | ⟨q, hq⟩
    · rw [h1, h2, h3, hs]
      unfold ansiAfterLink
      rw [hsock, hpipe, hdev, hchr]
      rfl
    · rw [h1, h2, h3, hq]
      unfold ansiAfterLink
      rw [hsock, hpipe, hdev, hchr]
      cases hsym2 : n.Mode.symlink <;> rfl
  · intro env n s h1
    simp only [ansiColor, extKey] at h1 ⊢
    rw [h1]
    rfl
  · intro env n s h1 h2
    simp only [ansiColor, extKey] at h1 h2 ⊢
    rw [h1, h2]
    rfl
  · intro env n s h1 h2 h3
    simp only [ansiColor, extKey] at h1 h2 h3 ⊢
    rw [h1, h2, h3]
    rfl
  · intro env n s q h1 h2 h3 hsym hq hsock hpipe hdev hchr
    simp only [ansiColor, extKey] at h1 h2 h3 ⊢
    rw [h1, h2, h3, hsym, hq]
    unfold ansiAfterLink
    rw [hsock, hpipe, hdev, hchr]
    rfl
  · intro env n s h1 h2 h3 hsym hsock hpipe hdev hchr hdir
    simp only [ansiColor, extKey] at h1 h2 h3 ⊢
    rw [h1, h2, h3, hsym, hdir]
    unfold ansiAfterLink
    rw [hsock, hpipe, hdev, hchr]
    rfl

/-- C9 witness: every component applied at a concrete node. -/
theorem C9_ansi_color_witness :
    ansiColor cycEnv (Node.mk (some ⟨"A.TAR", 0, false, plainMode, 0, none⟩)
        "/x" 1 none []) "s" =
      ansiColor cycEnv (Node.mk (some ⟨"b.tar", 0, false, plainMode, 0, none⟩)
        "/x" 1 none []) "s" ∧
    ansiColor cycEnv (Node.mk (some ⟨"dead", 0, false, linkMode, 0, none⟩)
        "/dead" 1 none []) "s" = orphanStyle "s" ∧
    orphanStyle "s" ≠ wrapBold Cyan "s" ∧
    ansiColor cycEnv (Node.mk (some ⟨"sock", 0, false, sockMode, 0, none⟩)
        "/s" 1 none []) "s" = socketStyle "s" ∧
    ansiColor cycEnv (Node.mk (some ⟨"pipe", 0, false, pipeMode, 0, none⟩)
        "/p" 1 none []) "s" = fifoStyle "s" ∧
    ansiColor cycEnv (Node.mk (some ⟨"blk", 0, false, blkMode, 0, none⟩)
        "/b" 1 none []) "s" = devStyle "s" ∧
    ansiColor cycEnv (Node.mk (some ⟨"chr", 0, false, chrMode, 0, none⟩)
        "/c" 1 none []) "s" = devStyle "s" ∧
    ansiColor cycEnv (Node.mk (some ⟨"run.EXE", 0, false, plainMode, 0, none⟩)
        "/r" 1 none []) "s" = wrapBold Green "s" ∧
    ansiColor cycEnv (Node.mk (some ⟨"a.zip", 0, false, plainMode, 0, none⟩)
        "/z" 1 none []) "s" = wrapBold Red "s" ∧
    ansiColor cycEnv (Node.mk (some ⟨"a.mp3", 0, false, plainMode, 0, none⟩)
        "/m" 1 none []) "s" = wrapBold Magenta "s" ∧
    ansiColor cycEnv (Node.mk (some ⟨"l", 0, false, linkMode, 0, none⟩)
        "/a/l" 1 none []) "s" = wrapBold Cyan "s" ∧
    ansiColor cycEnv (Node.mk (some ⟨"d", 0, true, plainMode, 0, none⟩)
        "/d" 1 none []) "s" = wrapBold Blue "s" := by
  refine ⟨?_, ?_, ?_, ?_, ?_, ?_, ?_, ?_, ?_, ?_, ?_, ?_⟩
  · exact C9_ansi_color.1 cycEnv "A.TAR" "b.tar" 0 false plainMode 0 none
      "/x" 1 none [] "s" (by decide)
  · exact C9_ansi_color.2.1 cycEnv _ "s"
      "lstat /dead: no such file or directory" (by decide) (by decide)
      (by decide) rfl rfl
  · exact (C9_ansi_color.2.2.1 "s").1
  · exact C9_ansi_color.2.2.2.1 cycEnv _ "s" (by decide) (by decide) (by decide)
      (Or.inl rfl) rfl
  · exact C9_ansi_color.2.2.2.2.1 cycEnv _ "s" (by decide) (by decide)
      (by decide) (Or.inl rfl) rfl rfl
  · exact C9_ansi_color.2.2.2.2.2.1 cycEnv _ "s" (by decide) (by decide)
      (by decide) (Or.inl rfl) rfl rfl rfl
  · exact C9_ansi_color.2.2.2.2.2.2.1 cycEnv _ "s" (by decide) (by decide)
      (by decide) (Or.inl rfl) rfl rfl rfl rfl
  · exact C9_ansi_color.2.2.2.2.2.2.2.1 cycEnv _ "s" (by decide)
  · exact C9_ansi_color.2.2.2.2.2.2.2.2.1 cycEnv _ "s" (by decide) (by decide)
  · exact C9_ansi_color.2.2.2.2.2.2.2.2.2.1 cycEnv _ "s" (by decide) (by decide)
      (by decide)
  · exact C9_ansi_color.2.2.2.2.2.2.2.2.2.2.1 cycEnv _ "s" "/a" (by decide)
      (by decide) (by decide) rfl rfl rfl rfl rfl rfl
  · exact C9_ansi_color.2.2.2.2.2.2.2.2.2.2.2 cycEnv _ "s" (by decide)
      (by decide) (by decide) rfl rfl rfl rfl rfl rfl

/-- C8 amended witness: rendering the cycle-scenario tree without
`FollowLink` returns the tree and the visited-path map unchanged, and
the adoption-scenario rendering with `FollowLink` satisfies the frame
relation against its input tree. -/
theorem C8_print_immutable_amended_witness :
    Options.zero.FollowLink = false ∧
    print cycEnv Options.zero 5 "" adoptTree ["/a/l", "/a"] =
      Except.ok ([(Dest.outFile, "/a\n"), (Dest.outFile, "└── "),
        (Dest.outFile, "l -> /a\n")], adoptTree, ["/a/l", "/a"]) ∧
    (adoptTree = adoptTree ∧ (["/a/l", "/a"] : List String) = ["/a/l", "/a"]) ∧
    frameOK adoptEnv optsFollow adoptTree adoptTreeAfter :=
  ⟨rfl, rfl,
   C8_print_immutable_amended.1 5 cycEnv Options.zero "" adoptTree
     ["/a/l", "/a"]
     [(Dest.outFile, "/a\n"), (Dest.outFile, "└── "),
       (Dest.outFile, "l -> /a\n")]
     adoptTree ["/a/l", "/a"] rfl rfl,
   C8_print_immutable_amended.2 5 adoptEnv optsFollow "" adoptTree
     ["/a/l", "/a"]
     [(Dest.outFile, "/a\n"), (Dest.outFile, "└── "),
       (Dest.outFile, "l -> /b\n"), (Dest.outFile, "    └── "),
       (Dest.outFile, "f\n")]
     adoptTreeAfter ["/b/f", "/b", "/a/l", "/a"] rfl⟩

end GoTree
